import Mathlib

/-!
# plantuner: index-visibility policy of the planner hook

A shallow embedding of `plantuner.c` (the PostgreSQL 9.1+ build: check hooks
validate with `doit = false`, assign hooks apply with `doit = true`).

* The static variables of the module are the fields of `State`.
* PostgreSQL itself (identifier splitting, catalog lookups, `heap_open`) is
  the record `Host`; the three process globals that guard catalog access are
  the record `Context`.
* `elog(WARNING, ...)`, the catalog lookups, `free` and the call of the
  previous hook are recorded, in program order, in a list of `Event`s.
* `ereport(ERROR)` leaves the running function and all its callers (there is
  no `PG_TRY` in the module): the report is the last event of the log and
  nothing after the point of the report is executed. The name lookup of
  `indexesAssign` raises it for a token that is not a valid qualified relation
  name.
* Memory is unbounded (`malloc` succeeds); `get_rel_relkind`, `get_rel_name`,
  `get_rel_namespace` and `get_namespace_name` report a missing object by
  their return value, and the planner calls the hook with the id of an
  existing relation.
-/

set_option linter.unusedVariables false

namespace Plantuner

/-! ## PostgreSQL types and constants -/

abbrev Oid := Nat

abbrev Ptr := Nat

def InvalidOid : Oid := 0

def InvalidBackendId : Int := -1

def RELKIND_INDEX : Char := 'i'

def RELKIND_RELATION : Char := 'r'

inductive IndexListKind where
  | EnabledKind
  | DisabledKind
  | OnlyKind
  deriving DecidableEq

open IndexListKind

/-- What `heap_open` gives access to: `relation->rd_rel->relkind` and
`RelationGetNumberOfBlocks(relation)`. -/
structure Relation where
  relkind : Char
  nblocks : Nat
  deriving DecidableEq

/-- The fields of `IndexOptInfo` the module reads. -/
structure IndexOptInfo where
  indexoid : Oid
  deriving DecidableEq

/-- The fields of `RelOptInfo` the module touches; `indexlist` is a list of
pointers to `IndexOptInfo`. -/
structure RelOptInfo where
  indexlist : List Ptr
  pages : Rat
  tuples : Rat
  deriving DecidableEq

/-- The outcome of the lookup chain
`RangeVarGetRelid(makeRangeVarFromNameList(stringToQualifiedNameList(curname)),
NoLock, true)`: an oid, `InvalidOid` when no relation has the name
(`missing_ok` is true), or `ereport(ERROR)` when the token is not a valid
qualified relation name (invalid name syntax, more than three dotted names, a
reference to another database). -/
inductive Lookup where
  | found (indexOid : Oid)
  | raise (msg : String)
  deriving DecidableEq

/-- The PostgreSQL functions the module calls. `RangeVarGetRelid` stands for
the whole lookup chain of a token; `garbage` is the content of freshly
allocated memory. -/
structure Host where
  SplitIdentifierString : String → Option (List String)
  RangeVarGetRelid : String → Lookup
  get_rel_relkind : Oid → Char
  get_rel_name : Oid → Option String
  get_rel_namespace : Oid → Oid
  get_namespace_name : Oid → Option String
  heap_open : Oid → Relation
  garbage : Oid

/-- The process globals tested before any catalog access. -/
structure Context where
  MyBackendId : Int
  IsUnderPostmaster : Bool
  IsTransactionState : Bool
  deriving DecidableEq

/-- The negation of the guard
`MyBackendId == InvalidBackendId || !IsUnderPostmaster || !IsTransactionState`. -/
def Context.valid (c : Context) : Bool :=
  !(c.MyBackendId == InvalidBackendId || !c.IsUnderPostmaster ||
    !c.IsTransactionState)

/-- Observable effects, in program order. `error` is a report at level
`ERROR`, after which control leaves the module; `free kind` is `free` called
on the block held by the static pointer of `kind`. -/
inductive Event where
  | lookup (curname : String)
  | relkind (indexOid : Oid)
  | warning (msg : String)
  | error (msg : String)
  | free (kind : IndexListKind)
  | hook (root : Ptr) (relationObjectId : Oid) (inhparent : Bool)
      (rel : RelOptInfo)
  deriving DecidableEq

def Event.isError : Event → Bool
  | Event.error _ => true
  | _ => false

/-- An `ERROR` was reported: control has left the module. -/
def raised (log : List Event) : Bool :=
  log.any Event.isError

/-! ## The static variables -/

/-- An `Oid *`: `none` is `NULL`, `some cells` a block of `cells.length`
entries. -/
abbrev OidArray := Option (List Oid)

structure State where
  nDisabledIndexes : Nat
  disabledIndexes : OidArray
  disableIndexesOutStr : String
  nEnabledIndexes : Nat
  enabledIndexes : OidArray
  enableIndexesOutStr : String
  nOnlyIndexes : Nat
  onlyIndexes : OidArray
  onlyIndexesOutStr : String
  fix_empty_table : Bool
  plantuner_enable_inited : Bool
  plantuner_only_inited : Bool
  plantuner_disable_inited : Bool
  deriving DecidableEq

/-- The initializers of the static variables. -/
def State.init : State where
  nDisabledIndexes := 0
  disabledIndexes := none
  disableIndexesOutStr := ""
  nEnabledIndexes := 0
  enabledIndexes := none
  enableIndexesOutStr := ""
  nOnlyIndexes := 0
  onlyIndexes := none
  onlyIndexesOutStr := ""
  fix_empty_table := false
  plantuner_enable_inited := false
  plantuner_only_inited := false
  plantuner_disable_inited := false

/-- The C expression `a[i]`. Reading `NULL` or past the block is undefined in
C; here it yields `InvalidOid`. -/
def OidArray.read (a : OidArray) (i : Nat) : Oid :=
  (a.getD []).getD i InvalidOid

/-- The C statement `a[i] = v`. -/
def OidArray.write (a : OidArray) (i : Nat) (v : Oid) : OidArray :=
  a.map (fun cells => cells.set i v)

/-- The call `malloc(sizeof(Oid) * n)`. -/
def malloc (h : Host) (n : Nat) : OidArray :=
  some (List.replicate n h.garbage)

/-! ## Accessors by kind (used in the statements) -/

def State.count (s : State) : IndexListKind → Nat
  | EnabledKind => s.nEnabledIndexes
  | DisabledKind => s.nDisabledIndexes
  | OnlyKind => s.nOnlyIndexes

def State.array (s : State) : IndexListKind → OidArray
  | EnabledKind => s.enabledIndexes
  | DisabledKind => s.disabledIndexes
  | OnlyKind => s.onlyIndexes

def State.inited (s : State) : IndexListKind → Bool
  | EnabledKind => s.plantuner_enable_inited
  | DisabledKind => s.plantuner_disable_inited
  | OnlyKind => s.plantuner_only_inited

def State.rawText (s : State) : IndexListKind → String
  | EnabledKind => s.enableIndexesOutStr
  | DisabledKind => s.disableIndexesOutStr
  | OnlyKind => s.onlyIndexesOutStr

/-- The entries `a[0], ..., a[n-1]` that the loops of the module read. -/
def membersOf (a : OidArray) (n : Nat) : List Oid :=
  (List.range n).map a.read

/-- The members of a kind: the first `count` entries of its array. -/
def State.members (s : State) (kind : IndexListKind) : List Oid :=
  membersOf (s.array kind) (s.count kind)

/-! ## indexesAssign -/

/-- The two `switch(kind)` statements that write an `inited` flag. -/
def setInited (s : State) (kind : IndexListKind) (b : Bool) : State :=
  match kind with
  | EnabledKind => { s with plantuner_enable_inited := b }
  | DisabledKind => { s with plantuner_disable_inited := b }
  | OnlyKind => { s with plantuner_only_inited := b }

/-- The final `switch(kind)` under `if (doit)`: store the count, release the
old block, install the new one. The static variables after it; the call of
`free` on the old block is recorded by `indexesAssign` as the event
`free kind`. -/
def commitOids (s : State) (kind : IndexListKind) (i : Nat)
    (newOids : OidArray) : State :=
  match kind with
  | EnabledKind => { s with nEnabledIndexes := i, enabledIndexes := newOids }
  | DisabledKind => { s with nDisabledIndexes := i, disabledIndexes := newOids }
  | OnlyKind => { s with nOnlyIndexes := i, onlyIndexes := newOids }

/-- The local variables the `foreach(l, namelist)` loop updates, with the
events emitted so far. -/
structure AssignLoop where
  newOids : OidArray
  i : Nat
  log : List Event

def warnNotExist (curname : String) : Event :=
  Event.warning ("\x27" ++ curname ++ "\x27 does not exist")

def warnNotIndex (curname : String) : Event :=
  Event.warning ("\x27" ++ curname ++ "\x27 is not an index")

/-- One iteration of `foreach(l, namelist)`. Once an `ERROR` was reported the
loop is not running any more and the remaining tokens are not visited. -/
def assignStep (h : Host) (doit : Bool) (acc : AssignLoop)
    (curname : String) : AssignLoop :=
  if raised acc.log then acc
  else
    match h.RangeVarGetRelid curname with
    | Lookup.raise msg =>
      { acc with log := acc.log ++ [Event.lookup curname, Event.error msg] }
    | Lookup.found indexOid =>
      let log := acc.log ++ [Event.lookup curname]
      if indexOid = InvalidOid then
        { acc with log := if doit = false then log ++ [warnNotExist curname] else log }
      else
        let log := log ++ [Event.relkind indexOid]
        if h.get_rel_relkind indexOid ≠ RELKIND_INDEX then
          { acc with log := if doit = false then log ++ [warnNotIndex curname] else log }
        else if doit then
          { newOids := acc.newOids.write acc.i indexOid, i := acc.i + 1, log := log }
        else
          { acc with log := log }

/-- The result of `indexesAssign`. When `raised` is false the function
returned `ret` (`none` is `NULL`); when it is true the function was left by
`ERROR` and returned nothing (`ret` is `none`). `state` holds the static
variables and `log` the events in both cases. -/
structure AssignResult where
  ret : Option String
  state : State
  log : List Event
  raised : Bool

def indexesAssign (h : Host) (ctx : Context) (s : State) (newval : String)
    (doit : Bool) (kind : IndexListKind) : AssignResult :=
  match h.SplitIdentifierString newval with
  | none => { ret := none, state := s, log := [], raised := false }
  | some namelist =>
    if ctx.MyBackendId == InvalidBackendId || !ctx.IsUnderPostmaster ||
        !ctx.IsTransactionState then
      { ret := some newval, state := setInited s kind false, log := [],
        raised := false }
    else
      let nOids := if doit then namelist.length else 0
      let newOids : OidArray := if doit then malloc h (nOids + 1) else none
      let s1 := setInited s kind true
      let acc := namelist.foldl (assignStep h doit)
        { newOids := newOids, i := 0, log := [] }
      if raised acc.log then
        { ret := none, state := s1, log := acc.log, raised := true }
      else
        let s2 := if doit then commitOids s1 kind acc.i acc.newOids else s1
        let log :=
          if doit && (s1.array kind).isSome then acc.log ++ [Event.free kind]
          else acc.log
        { ret := some newval, state := s2, log := log, raised := false }

/-! ## lateInit -/

/-- The static variables and the events when `lateInit` returns or is left
by an `ERROR` of one of its three calls; the calls after the one that raised
are not made. -/
def lateInit (h : Host) (ctx : Context) (s : State) : State × List Event :=
  let r1 : State × List Event :=
    if !s.plantuner_only_inited then
      let r := indexesAssign h ctx s s.onlyIndexesOutStr true OnlyKind
      (r.state, r.log)
    else (s, [])
  if raised r1.2 then r1
  else
    let r2 : State × List Event :=
      if !r1.1.plantuner_enable_inited then
        let r := indexesAssign h ctx r1.1 r1.1.enableIndexesOutStr true EnabledKind
        (r.state, r1.2 ++ r.log)
      else r1
    if raised r2.2 then r2
    else if !r2.1.plantuner_disable_inited then
      let r := indexesAssign h ctx r2.1 r2.1.disableIndexesOutStr true DisabledKind
      (r.state, r2.2 ++ r.log)
    else r2

/-! ## The check hooks

The first component is the value returned; it is meaningful when the log
holds no `ERROR`. -/

def checkOnlyIndexes (h : Host) (ctx : Context) (s : State)
    (newval : String) : Bool × State × List Event :=
  let r := indexesAssign h ctx s newval false OnlyKind
  (r.ret.isSome, r.state, r.log)

def checkDisabledIndexes (h : Host) (ctx : Context) (s : State)
    (newval : String) : Bool × State × List Event :=
  let r := indexesAssign h ctx s newval false DisabledKind
  (r.ret.isSome, r.state, r.log)

def checkEnabledIndexes (h : Host) (ctx : Context) (s : State)
    (newval : String) : Bool × State × List Event :=
  let r := indexesAssign h ctx s newval false EnabledKind
  (r.ret.isSome, r.state, r.log)

/-! ## indexFilter -/

/-- PostgreSQL's `list_delete_ptr`: unlink the first cell holding `datum`. -/
def list_delete_ptr : List Ptr → Ptr → List Ptr
  | [], _ => []
  | x :: xs, datum => if x = datum then xs else x :: list_delete_ptr xs datum

/-- The loop `for(i=0; remove && i<nOnlyIndexes; i++)`, with `k` iterations
left before `i` reaches `nOnlyIndexes`; the value is the final `remove`. -/
def onlyScan (s : State) (indexoid : Oid) : Nat → Nat → Bool → Bool
  | 0, _, remove => remove
  | k + 1, i, remove =>
    if remove then
      onlyScan s indexoid k (i + 1)
        (if s.onlyIndexes.read i = indexoid then false else remove)
    else remove

/-- One pass of `foreach(l, rel->indexlist)` in the only-list branch: the
first `info` for which `remove` stays true, if any. -/
def onlyPass (s : State) (mem : Ptr → IndexOptInfo) : List Ptr → Option Ptr
  | [] => none
  | info :: rest =>
    if onlyScan s (mem info).indexoid s.nOnlyIndexes 0 true then some info
    else onlyPass s mem rest

/-- The label `restart1`: scan, delete the first entry to remove, start the
scan again; return when a pass removes nothing. -/
def restart1 (s : State) (mem : Ptr → IndexOptInfo) (indexlist : List Ptr) :
    List Ptr :=
  match h : onlyPass s mem indexlist with
  | none => indexlist
  | some info => restart1 s mem (list_delete_ptr indexlist info)
termination_by indexlist.length
decreasing_by
  have hmem : ∀ l : List Ptr, onlyPass s mem l = some info → info ∈ l := by
    intro l
    induction l with
    | nil => intro h0; simp [onlyPass] at h0
    | cons x xs ih =>
      intro h0
      unfold onlyPass at h0
      split at h0
      · simp only [Option.some.injEq] at h0
        simp [h0]
      · exact List.mem_cons_of_mem _ (ih h0)
  have hlen : ∀ l : List Ptr, info ∈ l →
      (list_delete_ptr l info).length < l.length := by
    intro l
    induction l with
    | nil => intro h0; simp at h0
    | cons x xs ih =>
      intro h0
      unfold list_delete_ptr
      split
      · simp
      · rename_i hne
        rcases List.mem_cons.mp h0 with h1 | h1
        · exact absurd h1.symm hne
        · simpa using ih h1
  exact hlen indexlist (hmem indexlist h)

/-- The loop `for(j=0; j<nEnabledIndexes; j++) if (...) break;` with `k`
iterations left; the value is the final `j`. -/
def enabledScan (s : State) (indexoid : Oid) : Nat → Nat → Nat
  | 0, j => j
  | k + 1, j =>
    if s.enabledIndexes.read j = indexoid then j
    else enabledScan s indexoid k (j + 1)

/-- The loop `foreach(l, rel->indexlist)` of the disabled branch for one `i`;
`indexlist` is `rel->indexlist`, the last argument the cells not yet visited. -/
def disabledPass (s : State) (mem : Ptr → IndexOptInfo) (i : Nat)
    (indexlist : List Ptr) : List Ptr → List Ptr
  | [] => indexlist
  | info :: rest =>
    if s.disabledIndexes.read i = (mem info).indexoid then
      let j := enabledScan s (mem info).indexoid s.nEnabledIndexes 0
      if j ≥ s.nEnabledIndexes then list_delete_ptr indexlist info
      else indexlist
    else disabledPass s mem i indexlist rest

/-- The loop `for(i=0; i<nDisabledIndexes; i++)` with `k` iterations left. -/
def disabledLoop (s : State) (mem : Ptr → IndexOptInfo) :
    Nat → Nat → List Ptr → List Ptr
  | 0, _, indexlist => indexlist
  | k + 1, i, indexlist =>
    disabledLoop s mem k (i + 1) (disabledPass s mem i indexlist indexlist)

/-- The body of `indexFilter` after the call of `lateInit`. -/
def filterList (s : State) (mem : Ptr → IndexOptInfo) (indexlist : List Ptr) :
    List Ptr :=
  if s.nOnlyIndexes > 0 then restart1 s mem indexlist
  else disabledLoop s mem s.nDisabledIndexes 0 indexlist

/-- When `lateInit` is left by `ERROR` the list of the relation is not
touched. -/
def indexFilter (h : Host) (ctx : Context) (s : State)
    (mem : Ptr → IndexOptInfo) (root : Ptr) (relationObjectId : Oid)
    (inhparent : Bool) (rel : RelOptInfo) : State × RelOptInfo × List Event :=
  let r := lateInit h ctx s
  if raised r.2 then (r.1, rel, r.2)
  else (r.1, { rel with indexlist := filterList r.1 mem rel.indexlist }, r.2)

/-! ## execPlantuner -/

/-- The type of `prevHook`; the hook works on the `RelOptInfo` it is given. -/
abbrev HookType := Ptr → Oid → Bool → RelOptInfo → RelOptInfo

/-- When `indexFilter` is left by `ERROR` the previous hook is not called. -/
def execPlantuner (h : Host) (ctx : Context) (prevHook : Option HookType)
    (s : State) (mem : Ptr → IndexOptInfo) (root : Ptr)
    (relationObjectId : Oid) (inhparent : Bool) (rel : RelOptInfo) :
    State × RelOptInfo × List Event :=
  let relation := h.heap_open relationObjectId
  let own : State × RelOptInfo × List Event :=
    if relation.relkind = RELKIND_RELATION then
      let rel1 : RelOptInfo :=
        if s.fix_empty_table && relation.nblocks == 0 then
          { rel with pages := 1, tuples := 0 }
        else rel
      indexFilter h ctx s mem root relationObjectId inhparent rel1
    else (s, rel, [])
  if raised own.2.2 then own
  else
    match prevHook with
    | none => own
    | some hook =>
      (own.1, hook root relationObjectId inhparent own.2.1,
        own.2.2 ++ [Event.hook root relationObjectId inhparent own.2.1])

/-! ## IndexFilterShow -/

/-- The loop `for(i=0; i<nIndexes; i++)` with `k` iterations left; `val` is
the text written so far. Catalog names are shorter than `NAMEDATALEN`, so the
buffer of `1 + nIndexes * (2 * NAMEDATALEN + 3)` bytes never truncates. -/
def showLoop (h : Host) (indexes : OidArray) : Nat → Nat → String → String
  | 0, _, val => val
  | k + 1, i, val =>
    let relname := h.get_rel_name (indexes.read i)
    let nspOid := h.get_rel_namespace (indexes.read i)
    let nspname := h.get_namespace_name nspOid
    match relname, nspname with
    | some rn, some nn =>
      if nspOid = InvalidOid then showLoop h indexes k (i + 1) val
      else
        showLoop h indexes k (i + 1)
          (val ++ (if i = 0 then "" else ", ") ++ nn ++ "." ++ rn)
    | _, _ => showLoop h indexes k (i + 1) val

/-- An `Oid *` argument of `IndexFilterShow`. The module only holds pointers
to blocks it allocated for one of its three static pointers, so the argument
is given by the static pointer it was copied from (`origin`) and the block
that pointer held when the copy was made (`block`, `none` for `NULL`). A
`free` on that static pointer releases the block. -/
structure OidPtr where
  origin : IndexListKind
  block : OidArray
  deriving DecidableEq

/-- What a show function gives back: the text it returns; or nothing defined,
because the loop read a block that `lateInit` had released; or nothing at
all, because `lateInit` was left by `ERROR`. -/
inductive ShowResult where
  | text (val : String)
  | freedRead
  | raised
  deriving DecidableEq

/-- The arguments `indexes` and `nIndexes` are evaluated by the caller before
the call, hence before `lateInit` runs. When `lateInit` has called `free` on
the static pointer `indexes` was copied from, the loop, if it has an
iteration, reads released memory. -/
def IndexFilterShow (h : Host) (ctx : Context) (s : State)
    (indexes : OidPtr) (nIndexes : Nat) : ShowResult × State × List Event :=
  let r := lateInit h ctx s
  if raised r.2 then (ShowResult.raised, r.1, r.2)
  else if 0 < nIndexes ∧ indexes.block.isSome = true ∧
      Event.free indexes.origin ∈ r.2 then
    (ShowResult.freedRead, r.1, r.2)
  else (ShowResult.text (showLoop h indexes.block nIndexes 0 ""), r.1, r.2)

def disabledIndexFilterShow (h : Host) (ctx : Context) (s : State) :
    ShowResult × State × List Event :=
  IndexFilterShow h ctx s
    { origin := DisabledKind, block := s.disabledIndexes } s.nDisabledIndexes

def enabledIndexFilterShow (h : Host) (ctx : Context) (s : State) :
    ShowResult × State × List Event :=
  IndexFilterShow h ctx s
    { origin := EnabledKind, block := s.enabledIndexes } s.nEnabledIndexes

def onlyIndexFilterShow (h : Host) (ctx : Context) (s : State) :
    ShowResult × State × List Event :=
  IndexFilterShow h ctx s
    { origin := OnlyKind, block := s.onlyIndexes } s.nOnlyIndexes

/-! ## The assign hooks and the configuration-variable machinery -/

def assignDisabledIndexesNew (h : Host) (ctx : Context) (s : State)
    (newval : String) : State × List Event :=
  let r := indexesAssign h ctx s newval true DisabledKind
  (r.state, r.log)

def assignEnabledIndexesNew (h : Host) (ctx : Context) (s : State)
    (newval : String) : State × List Event :=
  let r := indexesAssign h ctx s newval true EnabledKind
  (r.state, r.log)

def assignOnlyIndexesNew (h : Host) (ctx : Context) (s : State)
    (newval : String) : State × List Event :=
  let r := indexesAssign h ctx s newval true OnlyKind
  (r.state, r.log)

/-- PostgreSQL storing a new value in the variable registered by
`DefineCustomStringVariable` (`&disableIndexesOutStr` and its siblings). -/
def setRawText (s : State) (kind : IndexListKind) (newval : String) : State :=
  match kind with
  | EnabledKind => { s with enableIndexesOutStr := newval }
  | DisabledKind => { s with disableIndexesOutStr := newval }
  | OnlyKind => { s with onlyIndexesOutStr := newval }

/-- The assign hook of a kind. -/
def assignHook (h : Host) (ctx : Context) (s : State) (kind : IndexListKind)
    (newval : String) : State × List Event :=
  match kind with
  | EnabledKind => assignEnabledIndexesNew h ctx s newval
  | DisabledKind => assignDisabledIndexesNew h ctx s newval
  | OnlyKind => assignOnlyIndexesNew h ctx s newval

/-- PostgreSQL applying a value to one of the three variables: the assign
hook of the kind runs, then the variable is overwritten, unless the hook was
left by `ERROR`. -/
def applyValue (h : Host) (ctx : Context) (s : State) (kind : IndexListKind)
    (newval : String) : State :=
  if raised (assignHook h ctx s kind newval).2 then (assignHook h ctx s kind newval).1
  else setRawText (assignHook h ctx s kind newval).1 kind newval

/-- PostgreSQL validating a value without applying it: only the check hook
of the kind runs. -/
def validateValue (h : Host) (ctx : Context) (s : State) (kind : IndexListKind)
    (newval : String) : State :=
  match kind with
  | EnabledKind => (checkEnabledIndexes h ctx s newval).2.1
  | DisabledKind => (checkDisabledIndexes h ctx s newval).2.1
  | OnlyKind => (checkOnlyIndexes h ctx s newval).2.1

/-- What can happen to the module during the life of a backend. -/
inductive Step where
  | validate (ctx : Context) (kind : IndexListKind) (newval : String)
  | apply (ctx : Context) (kind : IndexListKind) (newval : String)
  | plan (ctx : Context) (mem : Ptr → IndexOptInfo) (root : Ptr)
      (relationObjectId : Oid) (inhparent : Bool) (rel : RelOptInfo)

def Step.run (h : Host) (s : State) : Step → State
  | Step.validate ctx kind newval => validateValue h ctx s kind newval
  | Step.apply ctx kind newval => applyValue h ctx s kind newval
  | Step.plan ctx mem root relationObjectId inhparent rel =>
    (indexFilter h ctx s mem root relationObjectId inhparent rel).1

/-- The state reached from `s` by a sequence of steps over one catalog. -/
def runSteps (h : Host) (s : State) (steps : List Step) : State :=
  steps.foldl (Step.run h) s

/-! ## The vocabulary of the specification -/

/-- The lookup of the token completes: it reports no `ERROR`. -/
def lookupOk (h : Host) (curname : String) : Bool :=
  match h.RangeVarGetRelid curname with
  | Lookup.found _ => true
  | Lookup.raise _ => false

/-- The oid the lookup of the token finds; `InvalidOid` when it finds nothing
or does not complete. -/
def lookupOid (h : Host) (curname : String) : Oid :=
  match h.RangeVarGetRelid curname with
  | Lookup.found indexOid => indexOid
  | Lookup.raise _ => InvalidOid

/-- A token resolves when the lookup finds an object and that object is of
index kind. -/
def isIndexName (h : Host) (curname : String) : Bool :=
  lookupOid h curname != InvalidOid &&
    h.get_rel_relkind (lookupOid h curname) == RELKIND_INDEX

/-- The ids, in token order, of the tokens that resolve to an index. -/
def resolvedIds (h : Host) (namelist : List String) : List Oid :=
  (namelist.filter (isIndexName h)).map (lookupOid h)

/-- The text does not split, or the lookup of each of its tokens completes. -/
def textOk (h : Host) (text : String) : Bool :=
  match h.SplitIdentifierString text with
  | none => true
  | some namelist => namelist.all (lookupOk h)

/-- Every raw text that `lateInit` would resolve, that of a kind whose flag
is not set, has tokens whose lookups complete. -/
def lateInitOk (h : Host) (s : State) : Bool :=
  (s.plantuner_only_inited || textOk h s.onlyIndexesOutStr) &&
    (s.plantuner_enable_inited || textOk h s.enableIndexesOutStr) &&
    (s.plantuner_disable_inited || textOk h s.disableIndexesOutStr)

/-- The resolution of a raw text: defined when the text splits into an
identifier list. -/
def resolution (h : Host) (text : String) : Option (List Oid) :=
  (h.SplitIdentifierString text).map (resolvedIds h)

def Event.isHook : Event → Bool
  | Event.hook _ _ _ _ => true
  | _ => false

def Event.isFree : Event → Bool
  | Event.free _ => true
  | _ => false

/-- The `foreach(l, namelist)` loop of `indexesAssign` as a whole, from the
allocation before it: the block, the write index and the events at its end,
or at the point where it was left by `ERROR`. -/
def assignLoop (h : Host) (doit : Bool) (namelist : List String) : AssignLoop :=
  namelist.foldl (assignStep h doit)
    { newOids := if doit then malloc h (namelist.length + 1) else none,
      i := 0, log := [] }

/-- The relation info after the size override of `execPlantuner` for a
relation without blocks. -/
def emptyTableFix (s : State) (relation : Relation) (rel : RelOptInfo) :
    RelOptInfo :=
  if s.fix_empty_table && relation.nblocks == 0 then
    { rel with pages := 1, tuples := 0 }
  else rel

/-- One line of `lateInit`, reached with the static variables and the events
so far: nothing when an `ERROR` was reported before; otherwise resolve the raw
text of `kind` in apply mode when its flag is not set. -/
def lateInitKind (h : Host) (ctx : Context) (kind : IndexListKind)
    (p : State × List Event) : State × List Event :=
  if raised p.2 then p
  else if !p.1.inited kind then
    ((indexesAssign h ctx p.1 (p.1.rawText kind) true kind).state,
      p.2 ++ (indexesAssign h ctx p.1 (p.1.rawText kind) true kind).log)
  else p

def Event.isWarning : Event → Bool
  | Event.warning _ => true
  | _ => false

def Event.isLookup : Event → Bool
  | Event.lookup _ => true
  | Event.relkind _ => true
  | _ => false

/-- The warning for a token that does not resolve to an index: the object
does not exist, or it exists and is not an index. -/
def warningFor (h : Host) (curname : String) : Event :=
  if lookupOid h curname = InvalidOid then warnNotExist curname
  else warnNotIndex curname

/-! ## Counting the work of indexFilter -/

/-- The label `restart1` with a bound on the number of passes over the list:
`none` when the bound is used up, otherwise the list left and the number of
times `goto restart1` was taken. -/
def restart1Fuel (s : State) (mem : Ptr → IndexOptInfo) :
    Nat → List Ptr → Option (List Ptr × Nat)
  | 0, _ => none
  | fuel + 1, indexlist =>
    match onlyPass s mem indexlist with
    | none => some (indexlist, 0)
    | some info =>
      (restart1Fuel s mem fuel (list_delete_ptr indexlist info)).map
        (fun r => (r.1, r.2 + 1))

/-- The number of cells the `foreach` of the disabled branch visits for one
`i`, the cell at which it breaks included. -/
def disabledPassVisits (s : State) (mem : Ptr → IndexOptInfo) (i : Nat) :
    List Ptr → Nat
  | [] => 0
  | info :: rest =>
    if s.disabledIndexes.read i = (mem info).indexoid then 1
    else disabledPassVisits s mem i rest + 1

/-- The number of cells visited by the whole loop of the disabled branch,
with `k` iterations left. -/
def disabledLoopVisits (s : State) (mem : Ptr → IndexOptInfo) :
    Nat → Nat → List Ptr → Nat
  | 0, _, _ => 0
  | k + 1, i, indexlist =>
    disabledPassVisits s mem i indexlist +
      disabledLoopVisits s mem k (i + 1) (disabledPass s mem i indexlist indexlist)

/-! ## Sequences of calls -/

/-- A call into the module, or PostgreSQL overwriting one of the three
variables. -/
inductive Call where
  | assign (ctx : Context) (newval : String) (doit : Bool) (kind : IndexListKind)
  | setRaw (kind : IndexListKind) (newval : String)
  | late (ctx : Context)
  | filter (ctx : Context) (mem : Ptr → IndexOptInfo) (root : Ptr)
      (relationObjectId : Oid) (inhparent : Bool) (rel : RelOptInfo)

def Call.run (h : Host) (s : State) : Call → State
  | Call.assign ctx newval doit kind => (indexesAssign h ctx s newval doit kind).state
  | Call.setRaw kind newval => setRawText s kind newval
  | Call.late ctx => (lateInit h ctx s).1
  | Call.filter ctx mem root relationObjectId inhparent rel =>
    (indexFilter h ctx s mem root relationObjectId inhparent rel).1

def runCalls (h : Host) (s : State) (calls : List Call) : State :=
  calls.foldl (Call.run h) s

/-- The block of an array has room for the count: no block and count 0, or a
block strictly longer than the count. -/
def arrayHolds (a : OidArray) (n : Nat) : Prop :=
  match a with
  | none => n = 0
  | some cells => n < cells.length

/-- Every kind's block has room for its count. -/
def State.wellSized (s : State) : Prop :=
  ∀ k : IndexListKind, arrayHolds (s.array k) (s.count k)

/-- The count and block of a kind are those an apply-mode call stores for
some text: the count is at most the number of tokens of the text and the
block has that number plus one entries. -/
def storedFromText (h : Host) (s : State) (k : IndexListKind) : Prop :=
  ∃ (text : String) (namelist : List String),
    h.SplitIdentifierString text = some namelist ∧
      s.count k ≤ namelist.length ∧
      ∃ cells, s.array k = some cells ∧ cells.length = namelist.length + 1

/-! ## A small catalog for the examples

Indexes `a`, `b`, `c` (ids 1, 2, 3) in schema `public` (id 11); table `t`
(id 9, no blocks) and materialized view `mv` (id 8). The token `a.b.c.d` has
too many dotted names: its lookup reports an `ERROR`. Index 1 has since been
dropped as far as the name lookups by id are concerned in `droppedHost`. -/

def demoHost : Host where
  SplitIdentifierString := fun text =>
    if text = "" then some []
    else if text = "a" then some ["a"]
    else if text = "b" then some ["b"]
    else if text = "c" then some ["c"]
    else if text = "a, b" then some ["a", "b"]
    else if text = "t, b, no_such_index" then some ["t", "b", "no_such_index"]
    else if text = "no_such_index" then some ["no_such_index"]
    else if text = "a.b.c.d" then some ["a.b.c.d"]
    else if text = "b, a.b.c.d" then some ["b", "a.b.c.d"]
    else if text = "a.b.c.d, no_such_index" then some ["a.b.c.d", "no_such_index"]
    else none
  RangeVarGetRelid := fun curname =>
    if curname = "a" then Lookup.found 1 else if curname = "b" then Lookup.found 2
    else if curname = "c" then Lookup.found 3 else if curname = "t" then Lookup.found 9
    else if curname = "mv" then Lookup.found 8
    else if curname = "a.b.c.d" then
      Lookup.raise "improper relation name (too many dotted names)"
    else Lookup.found 0
  get_rel_relkind := fun oid =>
    if oid = 1 ∨ oid = 2 ∨ oid = 3 then 'i' else if oid = 9 then 'r'
    else if oid = 8 then 'm' else Char.ofNat 0
  get_rel_name := fun oid =>
    if oid = 1 then some "a" else if oid = 2 then some "b"
    else if oid = 3 then some "c" else if oid = 9 then some "t"
    else if oid = 8 then some "mv" else none
  get_rel_namespace := fun oid =>
    if oid = 1 ∨ oid = 2 ∨ oid = 3 ∨ oid = 8 ∨ oid = 9 then 11 else 0
  get_namespace_name := fun oid => if oid = 11 then some "public" else none
  heap_open := fun oid =>
    if oid = 9 then { relkind := 'r', nblocks := 0 }
    else { relkind := 'm', nblocks := 4 }
  garbage := 77

/-- The catalog of `demoHost` after `DROP INDEX a`. -/
def droppedHost : Host :=
  { demoHost with
    RangeVarGetRelid := fun curname =>
      if curname = "a" then Lookup.found 0 else demoHost.RangeVarGetRelid curname
    get_rel_relkind := fun oid =>
      if oid = 1 then Char.ofNat 0 else demoHost.get_rel_relkind oid
    get_rel_name := fun oid =>
      if oid = 1 then none else demoHost.get_rel_name oid
    get_rel_namespace := fun oid =>
      if oid = 1 then 0 else demoHost.get_rel_namespace oid }

/-- A backend inside a transaction. -/
def ctxValid : Context :=
  { MyBackendId := 3, IsUnderPostmaster := true, IsTransactionState := true }

/-- A backend outside any transaction. -/
def ctxIdle : Context :=
  { MyBackendId := 3, IsUnderPostmaster := true, IsTransactionState := false }

/-- Planner memory: the `IndexOptInfo` at address `100 + n` is index `n`. -/
def demoMem : Ptr → IndexOptInfo := fun p => { indexoid := p - 100 }

/-- The candidate list [A, B, C] of table `t`. -/
def demoRel : RelOptInfo := { indexlist := [101, 102, 103], pages := 10, tuples := 50 }

/-- Planner memory with two `IndexOptInfo` for one index: the entries at
addresses `100 + n` and `200 + n` both carry index id `n`. -/
def dupMem : Ptr → IndexOptInfo := fun p => { indexoid := p % 100 }

/-- A candidate list in which the second and third entries both carry the id
of index b. -/
def dupRel : RelOptInfo := { indexlist := [101, 102, 202, 103], pages := 10, tuples := 50 }

/-- A previous hook for the examples: it drops the first candidate. -/
def demoHook : HookType := fun _ _ _ rel => { rel with indexlist := rel.indexlist.tail }

/-! ## Reading the loops of indexFilter as list operations -/

theorem list_delete_ptr_eq_erase (l : List Ptr) (datum : Ptr) :
    list_delete_ptr l datum = l.erase datum := by
  induction l with
  | nil => rfl
  | cons x xs ih =>
    by_cases hx : x = datum
    · simp [list_delete_ptr, hx]
    · simp [list_delete_ptr, hx, List.erase_cons_tail, ih]

theorem mem_membersOf (a : OidArray) (n : Nat) (v : Oid) :
    v ∈ membersOf a n ↔ ∃ i, i < n ∧ a.read i = v := by
  simp [membersOf]

theorem onlyScan_false (s : State) (oid : Oid) (k i : Nat) :
    onlyScan s oid k i false = false := by
  cases k <;> simp [onlyScan]

theorem onlyScan_true (s : State) (oid : Oid) (k : Nat) :
    ∀ i, onlyScan s oid k i true = true ↔
      ∀ j, i ≤ j → j < i + k → s.onlyIndexes.read j ≠ oid := by
  induction k with
  | zero => intro i; simp [onlyScan]; intro j h1 h2; omega
  | succ k ih =>
    intro i
    by_cases hi : s.onlyIndexes.read i = oid
    · simp only [onlyScan, hi, if_true, onlyScan_false]
      constructor
      · intro h; cases h
      · intro h; exact absurd hi (h i (le_refl _) (by omega))
    · simp only [onlyScan, hi, if_true, if_false, ih]
      constructor
      · intro h j h1 h2
        rcases Nat.eq_or_lt_of_le h1 with h3 | h3
        · subst h3; exact hi
        · exact h j h3 (by omega)
      · intro h j h1 h2
        exact h j (by omega) (by omega)

theorem onlyScan_iff (s : State) (oid : Oid) :
    onlyScan s oid s.nOnlyIndexes 0 true = true ↔ oid ∉ s.members OnlyKind := by
  rw [onlyScan_true, State.members, mem_membersOf]
  simp only [State.array, State.count]
  constructor
  · rintro h ⟨i, hi, he⟩
    exact h i (Nat.zero_le _) (by omega) he
  · intro h j _ h2 he
    exact h ⟨j, by omega, he⟩

theorem onlyPass_none (s : State) (mem : Ptr → IndexOptInfo) (r : Ptr → Bool)
    (hr : ∀ p, r p = onlyScan s (mem p).indexoid s.nOnlyIndexes 0 true) :
    ∀ l, onlyPass s mem l = none → l.filter (fun p => !r p) = l := by
  intro l
  induction l with
  | nil => intro _; rfl
  | cons x xs ih =>
    intro h
    unfold onlyPass at h
    split at h
    · cases h
    · rename_i hx
      simp [List.filter_cons, hr x, hx, ih h]

theorem onlyPass_scan (s : State) (mem : Ptr → IndexOptInfo) :
    ∀ l info, onlyPass s mem l = some info →
      onlyScan s (mem info).indexoid s.nOnlyIndexes 0 true = true := by
  intro l
  induction l with
  | nil => intro info h; simp [onlyPass] at h
  | cons x xs ih =>
    intro info h
    unfold onlyPass at h
    split at h
    · rename_i hx
      simp only [Option.some.injEq] at h
      subst h
      exact hx
    · exact ih info h

theorem onlyPass_some (s : State) (mem : Ptr → IndexOptInfo) (r : Ptr → Bool)
    (hr : ∀ p, r p = onlyScan s (mem p).indexoid s.nOnlyIndexes 0 true) :
    ∀ l info, onlyPass s mem l = some info →
      (list_delete_ptr l info).filter (fun p => !r p) =
        l.filter (fun p => !r p) := by
  intro l
  induction l with
  | nil => intro info h; simp [onlyPass] at h
  | cons x xs ih =>
    intro info h
    unfold onlyPass at h
    split at h
    · rename_i hx
      simp only [Option.some.injEq] at h
      subst h
      simp [list_delete_ptr, List.filter_cons, hr x, hx]
    · rename_i hx
      have hne : x ≠ info := by
        intro he
        subst he
        exact hx (onlyPass_scan s mem xs x h)
      simp [list_delete_ptr, hne, List.filter_cons, ih info h]


theorem restart1_eq_filter (s : State) (mem : Ptr → IndexOptInfo) :
    ∀ (n : Nat) (l : List Ptr), l.length ≤ n →
      restart1 s mem l =
        l.filter (fun p => decide ((mem p).indexoid ∈ s.members OnlyKind)) := by
  have hr : ∀ p, (!decide ((mem p).indexoid ∈ s.members OnlyKind)) =
      onlyScan s (mem p).indexoid s.nOnlyIndexes 0 true := by
    intro p
    by_cases hp : (mem p).indexoid ∈ s.members OnlyKind
    · have := (onlyScan_iff s (mem p).indexoid).not.mpr (not_not.mpr hp)
      simp [hp, this]
    · have := (onlyScan_iff s (mem p).indexoid).mpr hp
      simp [hp, this]
  have hf : ∀ l : List Ptr,
      l.filter (fun p => !(!decide ((mem p).indexoid ∈ s.members OnlyKind))) =
        l.filter (fun p => decide ((mem p).indexoid ∈ s.members OnlyKind)) := by
    intro l; congr 1; funext p; simp
  intro n
  induction n with
  | zero =>
    intro l hl
    have : l = [] := List.length_eq_zero.mp (Nat.le_zero.mp hl)
    subst this
    rw [restart1]
    simp [onlyPass]
  | succ n ih =>
    intro l hl
    rw [restart1]
    split
    · rename_i hnone
      rw [← hf]
      exact (onlyPass_none s mem _ hr l hnone).symm
    · rename_i info hsome
      have hmem : info ∈ l := by
        have : ∀ l : List Ptr, onlyPass s mem l = some info → info ∈ l := by
          intro l
          induction l with
          | nil => intro h0; simp [onlyPass] at h0
          | cons x xs ih2 =>
            intro h0
            unfold onlyPass at h0
            split at h0
            · simp only [Option.some.injEq] at h0
              simp [h0]
            · exact List.mem_cons_of_mem _ (ih2 h0)
        exact this l hsome
      have hlen : (list_delete_ptr l info).length ≤ n := by
        rw [list_delete_ptr_eq_erase, List.length_erase_of_mem hmem]
        omega
      rw [ih _ hlen, ← hf, ← hf]
      exact onlyPass_some s mem _ hr l info hsome


theorem enabledScan_le (s : State) (oid : Oid) (k : Nat) :
    ∀ j, enabledScan s oid k j ≤ j + k := by
  induction k with
  | zero => intro j; simp [enabledScan]
  | succ k ih =>
    intro j
    unfold enabledScan
    split
    · omega
    · have := ih (j + 1); omega

theorem enabledScan_ge (s : State) (oid : Oid) (k : Nat) :
    ∀ j, j + k ≤ enabledScan s oid k j ↔
      ∀ i, j ≤ i → i < j + k → s.enabledIndexes.read i ≠ oid := by
  induction k with
  | zero => intro j; simp [enabledScan]; intro i h1 h2; omega
  | succ k ih =>
    intro j
    unfold enabledScan
    split
    · rename_i hj
      constructor
      · intro h; omega
      · intro h; exact absurd hj (h j (le_refl _) (by omega))
    · rename_i hj
      have := ih (j + 1)
      rw [show j + (k + 1) = j + 1 + k by omega, this]
      constructor
      · intro h i h1 h2
        rcases Nat.eq_or_lt_of_le h1 with h3 | h3
        · subst h3; exact hj
        · exact h i h3 h2
      · intro h i h1 h2
        exact h i (by omega) h2

theorem enabledScan_iff (s : State) (oid : Oid) :
    enabledScan s oid s.nEnabledIndexes 0 ≥ s.nEnabledIndexes ↔
      oid ∉ s.members EnabledKind := by
  have := enabledScan_ge s oid s.nEnabledIndexes 0
  simp only [Nat.zero_add] at this
  rw [ge_iff_le, this, State.members, mem_membersOf]
  simp only [State.array, State.count]
  constructor
  · rintro h ⟨i, hi, he⟩
    exact h i (Nat.zero_le _) hi he
  · intro h j _ h2 he
    exact h ⟨j, h2, he⟩

/-- The outcome of one `foreach` of the disabled branch, by the first cell
whose id equals `disabledIndexes[i]`. -/
theorem disabledPass_eq (s : State) (mem : Ptr → IndexOptInfo) (i : Nat)
    (indexlist : List Ptr) :
    ∀ rest, disabledPass s mem i indexlist rest =
      match rest.find? (fun p => decide (s.disabledIndexes.read i = (mem p).indexoid)) with
      | none => indexlist
      | some info =>
        if (mem info).indexoid ∈ s.members EnabledKind then indexlist
        else list_delete_ptr indexlist info := by
  intro rest
  induction rest with
  | nil => simp [disabledPass]
  | cons x xs ih =>
    unfold disabledPass
    by_cases hx : s.disabledIndexes.read i = (mem x).indexoid
    · simp only [hx, if_true, List.find?_cons, decide_True]
      by_cases he : (mem x).indexoid ∈ s.members EnabledKind
      · have := (enabledScan_iff s (mem x).indexoid).not.mpr (not_not.mpr he)
        simp [he, this]
      · have := (enabledScan_iff s (mem x).indexoid).mpr he
        simp [he, this]
    · simp [hx, List.find?_cons, ih]


theorem disabledPass_cases (s : State) (mem : Ptr → IndexOptInfo) (i : Nat)
    (indexlist : List Ptr) :
    ∀ rest, disabledPass s mem i indexlist rest = indexlist ∨
      ∃ info, disabledPass s mem i indexlist rest = list_delete_ptr indexlist info := by
  intro rest
  induction rest with
  | nil => exact Or.inl rfl
  | cons x xs ih =>
    unfold disabledPass
    split
    · simp only []
      split
      · exact Or.inr ⟨x, rfl⟩
      · exact Or.inl rfl
    · exact ih

theorem disabledPass_sublist (s : State) (mem : Ptr → IndexOptInfo) (i : Nat)
    (indexlist rest : List Ptr) :
    (disabledPass s mem i indexlist rest).Sublist indexlist := by
  rcases disabledPass_cases s mem i indexlist rest with h | ⟨info, h⟩
  · rw [h]
  · rw [h, list_delete_ptr_eq_erase]
    exact List.erase_sublist info indexlist

theorem disabledLoop_sublist (s : State) (mem : Ptr → IndexOptInfo) (k : Nat) :
    ∀ (i : Nat) (indexlist : List Ptr),
      (disabledLoop s mem k i indexlist).Sublist indexlist := by
  induction k with
  | zero => intro i l; exact List.Sublist.refl l
  | succ k ih =>
    intro i l
    unfold disabledLoop
    exact (ih (i + 1) _).trans (disabledPass_sublist s mem i l l)

theorem filterList_sublist (s : State) (mem : Ptr → IndexOptInfo)
    (indexlist : List Ptr) : (filterList s mem indexlist).Sublist indexlist := by
  unfold filterList
  split
  · rw [restart1_eq_filter s mem _ _ (le_refl _)]
    exact List.filter_sublist indexlist
  · exact disabledLoop_sublist s mem _ 0 indexlist

/-! ## The number of passes and visits of indexFilter -/

theorem onlyPass_mem (s : State) (mem : Ptr → IndexOptInfo) :
    ∀ (l : List Ptr) (info : Ptr), onlyPass s mem l = some info → info ∈ l := by
  intro l
  induction l with
  | nil => intro info h0; simp [onlyPass] at h0
  | cons x xs ih =>
    intro info h0
    unfold onlyPass at h0
    split at h0
    · simp only [Option.some.injEq] at h0
      simp [h0]
    · exact List.mem_cons_of_mem _ (ih info h0)

theorem onlyPass_delete_length (s : State) (mem : Ptr → IndexOptInfo)
    (l : List Ptr) (info : Ptr) (h0 : onlyPass s mem l = some info) :
    (list_delete_ptr l info).length + 1 = l.length := by
  have hmem := onlyPass_mem s mem l info h0
  rw [list_delete_ptr_eq_erase, List.length_erase_of_mem hmem]
  have : 0 < l.length := List.length_pos_of_mem hmem
  omega

theorem restart1_none (s : State) (mem : Ptr → IndexOptInfo) (l : List Ptr)
    (h0 : onlyPass s mem l = none) : restart1 s mem l = l := by
  rw [restart1]
  split
  · rfl
  · rename_i info h1
    rw [h0] at h1; cases h1

theorem restart1_some (s : State) (mem : Ptr → IndexOptInfo) (l : List Ptr)
    (info : Ptr) (h0 : onlyPass s mem l = some info) :
    restart1 s mem l = restart1 s mem (list_delete_ptr l info) := by
  rw [restart1]
  split
  · rename_i h1
    rw [h0] at h1; cases h1
  · rename_i info2 h1
    rw [h0] at h1
    cases h1
    rfl

theorem restart1_length_le (s : State) (mem : Ptr → IndexOptInfo) (l : List Ptr) :
    (restart1 s mem l).length ≤ l.length := by
  rw [restart1_eq_filter s mem _ l (le_refl _)]
  exact List.length_filter_le _ l

/-- With more passes allowed than the list has entries, the bounded loop
returns what `restart1` returns, and the number of restarts is the number of
entries removed. -/
theorem restart1Fuel_enough (s : State) (mem : Ptr → IndexOptInfo) :
    ∀ (fuel : Nat) (l : List Ptr), l.length < fuel →
      restart1Fuel s mem fuel l =
        some (restart1 s mem l, l.length - (restart1 s mem l).length) := by
  intro fuel
  induction fuel with
  | zero => intro l hl; omega
  | succ fuel ih =>
    intro l hl
    unfold restart1Fuel
    cases h0 : onlyPass s mem l with
    | none =>
      simp only [restart1_none s mem l h0, Nat.sub_self]
    | some info =>
      have hlen := onlyPass_delete_length s mem l info h0
      have hle := restart1_length_le s mem (list_delete_ptr l info)
      simp only [restart1_some s mem l info h0]
      rw [ih (list_delete_ptr l info) (by omega)]
      simp only [Option.map_some', Option.some.injEq, Prod.mk.injEq, true_and]
      omega

theorem disabledPassVisits_le (s : State) (mem : Ptr → IndexOptInfo) (i : Nat) :
    ∀ l : List Ptr, disabledPassVisits s mem i l ≤ l.length := by
  intro l
  induction l with
  | nil => simp [disabledPassVisits]
  | cons x xs ih =>
    unfold disabledPassVisits
    split
    · simp
    · simp only [List.length_cons]; omega

theorem disabledLoopVisits_le (s : State) (mem : Ptr → IndexOptInfo) (k : Nat) :
    ∀ (i : Nat) (l : List Ptr), disabledLoopVisits s mem k i l ≤ k * l.length := by
  induction k with
  | zero => intro i l; simp [disabledLoopVisits]
  | succ k ih =>
    intro i l
    unfold disabledLoopVisits
    have h1 := disabledPassVisits_le s mem i l
    have h2 := ih (i + 1) (disabledPass s mem i l l)
    have h3 := (disabledPass_sublist s mem i l l).length_le
    have h4 : k * (disabledPass s mem i l l).length ≤ k * l.length :=
      Nat.mul_le_mul_left k h3
    rw [Nat.succ_mul]
    omega

/-! ## One disabled entry, one candidate -/

/-- The `foreach` of the disabled branch either leaves the list alone or
unlinks the first cell carrying `disabledIndexes[i]`, and only when that id
is not an enabled member. -/
theorem disabledPass_shape (s : State) (mem : Ptr → IndexOptInfo) (i : Nat)
    (indexlist : List Ptr) :
    ∀ (rest pre : List Ptr), indexlist = pre ++ rest →
      (∀ p ∈ pre, (mem p).indexoid ≠ s.disabledIndexes.read i) →
      disabledPass s mem i indexlist rest = indexlist ∨
        ∃ front info back, indexlist = front ++ info :: back ∧
          (∀ p ∈ front, (mem p).indexoid ≠ s.disabledIndexes.read i) ∧
          (mem info).indexoid = s.disabledIndexes.read i ∧
          (mem info).indexoid ∉ s.members EnabledKind ∧
          disabledPass s mem i indexlist rest = front ++ back := by
  intro rest
  induction rest with
  | nil => intro pre _ _; exact Or.inl rfl
  | cons x xs ih =>
    intro pre hl hpre
    unfold disabledPass
    by_cases hx : s.disabledIndexes.read i = (mem x).indexoid
    · rw [if_pos hx]
      dsimp only
      by_cases he : (mem x).indexoid ∈ s.members EnabledKind
      · have := (enabledScan_iff s (mem x).indexoid).not.mpr (not_not.mpr he)
        rw [if_neg this]
        exact Or.inl rfl
      · have := (enabledScan_iff s (mem x).indexoid).mpr he
        rw [if_pos this]
        right
        refine ⟨pre, x, xs, hl, hpre, hx.symm, he, ?_⟩
        have hnot : x ∉ pre := fun hm => hpre x hm hx.symm
        rw [hl, list_delete_ptr_eq_erase, List.erase_append_right _ hnot]
        simp
    · rw [if_neg hx]
      apply ih (pre ++ [x])
      · rw [hl]; simp
      · intro p hp
        rcases List.mem_append.mp hp with h1 | h1
        · exact hpre p h1
        · rw [List.mem_singleton.mp h1]
          exact fun h2 => hx h2.symm

theorem disabledPass_first (s : State) (mem : Ptr → IndexOptInfo) (i : Nat)
    (front back : List Ptr) (info : Ptr)
    (hfront : ∀ p ∈ front, (mem p).indexoid ≠ s.disabledIndexes.read i)
    (hinfo : (mem info).indexoid = s.disabledIndexes.read i) :
    disabledPass s mem i (front ++ info :: back) (front ++ info :: back) =
      if (mem info).indexoid ∈ s.members EnabledKind then front ++ info :: back
      else front ++ back := by
  rw [disabledPass_eq]
  have hfind : (front ++ info :: back).find?
      (fun p => decide (s.disabledIndexes.read i = (mem p).indexoid)) = some info := by
    rw [List.find?_append]
    have hn : front.find?
        (fun p => decide (s.disabledIndexes.read i = (mem p).indexoid)) = none := by
      rw [List.find?_eq_none]
      intro p hp
      simpa using fun h2 : s.disabledIndexes.read i = (mem p).indexoid =>
        hfront p hp h2.symm
    rw [hn]
    simp [List.find?_cons, hinfo]
  rw [hfind]
  simp only []
  split
  · rfl
  · have hnot : info ∉ front := fun hm => hfront info hm hinfo
    rw [list_delete_ptr_eq_erase, List.erase_append_right _ hnot]
    simp

theorem disabledPass_absent (s : State) (mem : Ptr → IndexOptInfo) (i : Nat)
    (l : List Ptr)
    (hl : ∀ p ∈ l, (mem p).indexoid ≠ s.disabledIndexes.read i) :
    disabledPass s mem i l l = l := by
  rw [disabledPass_eq]
  have hn : l.find?
      (fun p => decide (s.disabledIndexes.read i = (mem p).indexoid)) = none := by
    rw [List.find?_eq_none]
    intro p hp
    simpa using fun h2 : s.disabledIndexes.read i = (mem p).indexoid =>
      hl p hp h2.symm
  rw [hn]

/-- One pass lowers the number of candidates carrying an id by at most one,
and only for the id `disabledIndexes[i]` when it is not an enabled member. -/
theorem disabledPass_count (s : State) (mem : Ptr → IndexOptInfo) (i : Nat)
    (l : List Ptr) (x : Oid) :
    (l.map (fun p => (mem p).indexoid)).count x ≤
        ((disabledPass s mem i l l).map (fun p => (mem p).indexoid)).count x +
          (if s.disabledIndexes.read i = x ∧ x ∉ s.members EnabledKind then 1 else 0) ∧
      l.length ≤ (disabledPass s mem i l l).length + 1 := by
  rcases disabledPass_shape s mem i l l [] rfl (by intro p hp; cases hp) with
    h | ⟨front, info, back, hl, _, hinfo, he, h⟩
  · rw [h]; exact ⟨Nat.le_add_right _ _, Nat.le_add_right _ _⟩
  · rw [h]
    constructor
    · rw [hl]
      simp only [List.map_append, List.map_cons, List.count_append, List.count_cons]
      by_cases hx : (mem info).indexoid = x
      · have h1 : s.disabledIndexes.read i = x ∧ x ∉ s.members EnabledKind :=
          ⟨hinfo.symm.trans hx, hx ▸ he⟩
        simp only [h1, hx, beq_self_eq_true, if_true, and_self, not_false_eq_true]
        omega
      · have h2 : ((mem info).indexoid == x) = false := by simpa using hx
        simp only [h2, Bool.false_eq_true, if_false]
        omega
    · rw [hl]
      simp only [List.length_append, List.length_cons]
      omega

theorem disabledLoop_count (s : State) (mem : Ptr → IndexOptInfo) (x : Oid)
    (k : Nat) :
    ∀ (i : Nat) (l : List Ptr),
      (l.map (fun p => (mem p).indexoid)).count x ≤
          ((disabledLoop s mem k i l).map (fun p => (mem p).indexoid)).count x +
            (if x ∈ s.members EnabledKind then 0
              else ((List.range' i k).map s.disabledIndexes.read).count x) ∧
        l.length ≤ (disabledLoop s mem k i l).length + k := by
  induction k with
  | zero => intro i l; simp [disabledLoop]
  | succ k ih =>
    intro i l
    unfold disabledLoop
    have h1 := disabledPass_count s mem i l x
    have h2 := ih (i + 1) (disabledPass s mem i l l)
    refine ⟨?_, by omega⟩
    simp only [List.range'_succ, List.map_cons, List.count_cons]
    by_cases he : x ∈ s.members EnabledKind
    · simp only [he, if_true, not_true_eq_false, and_false, if_false] at h1 h2 ⊢
      omega
    · simp only [he, if_false, not_false_eq_true, and_true] at h1 h2 ⊢
      by_cases hd : s.disabledIndexes.read i = x
      · simp only [hd, if_true, beq_self_eq_true] at h1 ⊢
        omega
      · have hb : (s.disabledIndexes.read i == x) = false := by simpa using hd
        simp only [hd, if_false, hb, Bool.false_eq_true] at h1 ⊢
        omega

/-! ## The two branches of the filter -/

theorem Context.valid_false_iff (ctx : Context) :
    ctx.valid = false ↔
      (ctx.MyBackendId = InvalidBackendId ∨ ctx.IsUnderPostmaster = false ∨
        ctx.IsTransactionState = false) := by
  unfold Context.valid
  cases ctx.IsUnderPostmaster <;> cases ctx.IsTransactionState <;>
    by_cases hb : ctx.MyBackendId = InvalidBackendId <;> simp [hb]

theorem raised_append (a b : List Event) :
    raised (a ++ b) = (raised a || raised b) := by
  simp [raised, List.any_append]

theorem raised_nil : raised [] = false := rfl

theorem raised_cons (e : Event) (l : List Event) :
    raised (e :: l) = (e.isError || raised l) := by
  simp [raised]

theorem raised_singleton (e : Event) : raised [e] = e.isError := by
  simp [raised]

theorem raised_pair (e1 e2 : Event) : raised [e1, e2] = (e1.isError || e2.isError) := by
  simp [raised]

theorem setInited_frame (s : State) (kind : IndexListKind) (b : Bool) :
    (∀ k, (setInited s kind b).array k = s.array k ∧
      (setInited s kind b).count k = s.count k ∧
      (setInited s kind b).rawText k = s.rawText k ∧
      (k = kind ∨ (setInited s kind b).inited k = s.inited k)) ∧
    (setInited s kind b).inited kind = b ∧
    (setInited s kind b).fix_empty_table = s.fix_empty_table := by
  refine ⟨fun k => ?_, ?_, ?_⟩
  · cases kind <;> cases k <;>
      simp [setInited, State.array, State.count, State.rawText, State.inited]
  · cases kind <;> simp [setInited, State.inited]
  · cases kind <;> simp [setInited]

theorem commitOids_frame (s : State) (kind : IndexListKind) (i : Nat)
    (newOids : OidArray) :
    (∀ k, (commitOids s kind i newOids).inited k = s.inited k ∧
      (commitOids s kind i newOids).rawText k = s.rawText k ∧
      (k = kind ∨ ((commitOids s kind i newOids).array k = s.array k ∧
        (commitOids s kind i newOids).count k = s.count k))) ∧
    (commitOids s kind i newOids).array kind = newOids ∧
    (commitOids s kind i newOids).count kind = i ∧
    (commitOids s kind i newOids).fix_empty_table = s.fix_empty_table := by
  refine ⟨fun k => ?_, ?_, ?_, ?_⟩
  · cases kind <;> cases k <;>
      simp [commitOids, State.array, State.count, State.rawText, State.inited]
  · cases kind <;> simp [commitOids, State.array]
  · cases kind <;> simp [commitOids, State.count]
  · cases kind <;> simp [commitOids]

theorem set_append_replicate (pre : List Oid) (m : Nat) (g v : Oid) :
    (pre ++ List.replicate (m + 1) g).set pre.length v =
      (pre ++ [v]) ++ List.replicate m g := by
  induction pre with
  | nil => simp [List.replicate_succ]
  | cons x xs ih => simpa using ih

theorem membersOf_append (xs ys : List Oid) :
    membersOf (some (xs ++ ys)) xs.length = xs := by
  apply List.ext_getElem
  · simp [membersOf]
  · intro i h1 h2
    simp [membersOf, OidArray.read, List.getD_eq_getElem?_getD, List.getElem?_append_left h2,
      List.getElem?_eq_getElem h2]

theorem append_no_hook (l : List Event) (x : Event)
    (hl : ∀ e ∈ l, e.isHook = false) (hx : x.isHook = false) :
    ∀ e ∈ l ++ [x], e.isHook = false := by
  intro e he
  rcases List.mem_append.mp he with h1 | h1
  · exact hl e h1
  · rw [List.mem_singleton.mp h1]; exact hx

theorem assignStep_raised (h : Host) (doit : Bool) (acc : AssignLoop)
    (curname : String) (hr : raised acc.log = true) :
    assignStep h doit acc curname = acc := by
  simp [assignStep, hr]

theorem lookupOid_found (h : Host) (curname : String) (indexOid : Oid)
    (hl : h.RangeVarGetRelid curname = Lookup.found indexOid) :
    lookupOid h curname = indexOid ∧ lookupOk h curname = true := by
  simp [lookupOid, lookupOk, hl]

theorem lookupOid_raise (h : Host) (curname : String) (msg : String)
    (hl : h.RangeVarGetRelid curname = Lookup.raise msg) :
    lookupOid h curname = InvalidOid ∧ lookupOk h curname = false ∧
      isIndexName h curname = false := by
  simp [lookupOid, lookupOk, isIndexName, hl]

/-- A token that does not resolve to an index leaves the block and the write
index as they are. -/
theorem assignStep_skip (h : Host) (doit : Bool) (acc : AssignLoop)
    (curname : String) (hn : isIndexName h curname = false) :
    (assignStep h doit acc curname).newOids = acc.newOids ∧
      (assignStep h doit acc curname).i = acc.i := by
  unfold assignStep
  split
  · exact ⟨rfl, rfl⟩
  · split
    · exact ⟨rfl, rfl⟩
    · rename_i indexOid hl
      have ho := (lookupOid_found h curname indexOid hl).1
      by_cases h1 : indexOid = InvalidOid
      · simp [h1]
      · by_cases h2 : h.get_rel_relkind indexOid = RELKIND_INDEX
        · simp [isIndexName, ho, h1, h2] at hn
        · simp [h1, h2]

theorem assignStep_keep (h : Host) (acc : AssignLoop)
    (curname : String) (hr : raised acc.log = false)
    (hn : isIndexName h curname = true) :
    (assignStep h true acc curname).newOids =
        acc.newOids.write acc.i (lookupOid h curname) ∧
      (assignStep h true acc curname).i = acc.i + 1 := by
  unfold assignStep
  rw [if_neg (by simp [hr])]
  split
  · rename_i msg hl
    rw [(lookupOid_raise h curname msg hl).2.2] at hn
    cases hn
  · rename_i indexOid hl
    have ho := (lookupOid_found h curname indexOid hl).1
    simp only [isIndexName, ho, Bool.and_eq_true, bne_iff_ne, ne_eq, beq_iff_eq] at hn
    simp [hn.1, hn.2, ho]

theorem assignStep_validate (h : Host) (acc : AssignLoop) (curname : String) :
    (assignStep h false acc curname).newOids = acc.newOids ∧
      (assignStep h false acc curname).i = acc.i := by
  unfold assignStep
  split
  · exact ⟨rfl, rfl⟩
  · split
    · exact ⟨rfl, rfl⟩
    · rename_i indexOid hl
      by_cases h1 : indexOid = InvalidOid
      · simp [h1]
      · by_cases h2 : h.get_rel_relkind indexOid = RELKIND_INDEX
        · simp [h1, h2]
        · simp [h1, h2]

/-- A token whose lookup completes reports no `ERROR`. -/
theorem assignStep_ok (h : Host) (doit : Bool) (acc : AssignLoop)
    (curname : String) (hr : raised acc.log = false)
    (hok : lookupOk h curname = true) :
    raised (assignStep h doit acc curname).log = false := by
  unfold assignStep
  rw [if_neg (by simp [hr])]
  split
  · rename_i msg hl
    rw [(lookupOid_raise h curname msg hl).2.1] at hok
    cases hok
  · rename_i indexOid hl
    by_cases h1 : indexOid = InvalidOid
    · cases doit <;>
        simp [h1, raised_append, hr, raised_cons, raised_nil, Event.isError, warnNotExist]
    · by_cases h2 : h.get_rel_relkind indexOid = RELKIND_INDEX
      · cases doit <;> simp [h1, h2, raised_append, hr, raised_cons, raised_nil, Event.isError]
      · cases doit <;>
          simp [h1, h2, raised_append, hr, raised_cons, raised_nil, Event.isError, warnNotIndex]

/-- A token whose lookup does not complete ends the loop with an `ERROR`. -/
theorem assignStep_raise (h : Host) (doit : Bool) (acc : AssignLoop)
    (curname : String) (hr : raised acc.log = false)
    (hok : lookupOk h curname = false) :
    raised (assignStep h doit acc curname).log = true := by
  unfold assignStep
  rw [if_neg (by simp [hr])]
  split
  · simp [raised_append, raised_pair, Event.isError]
  · rename_i indexOid hl
    rw [(lookupOid_found h curname indexOid hl).2] at hok
    cases hok

theorem assign_fold_raised (h : Host) (doit : Bool) :
    ∀ (namelist : List String) (acc : AssignLoop), raised acc.log = true →
      namelist.foldl (assignStep h doit) acc = acc := by
  intro namelist
  induction namelist with
  | nil => intro acc _; rfl
  | cons x xs ih =>
    intro acc hr
    rw [List.foldl_cons, assignStep_raised h doit acc x hr]
    exact ih acc hr

theorem assign_fold_ok (h : Host) (doit : Bool) :
    ∀ (namelist : List String) (acc : AssignLoop), raised acc.log = false →
      (∀ t ∈ namelist, lookupOk h t = true) →
      raised (namelist.foldl (assignStep h doit) acc).log = false := by
  intro namelist
  induction namelist with
  | nil => intro acc hr _; exact hr
  | cons x xs ih =>
    intro acc hr hok
    rw [List.foldl_cons]
    exact ih _ (assignStep_ok h doit acc x hr (hok x (List.mem_cons_self x xs)))
      (fun t ht => hok t (List.mem_cons_of_mem x ht))

/-- The `foreach` loop in apply mode, when every lookup completes, fills the
block with the resolved ids in token order and counts them. -/
theorem assign_fold_apply (h : Host) :
    ∀ (namelist : List String) (acc : AssignLoop) (pre : List Oid) (m : Nat),
      raised acc.log = false →
      (∀ t ∈ namelist, lookupOk h t = true) →
      namelist.length ≤ m →
      acc.newOids = some (pre ++ List.replicate m h.garbage) →
      acc.i = pre.length →
      (namelist.foldl (assignStep h true) acc).newOids =
          some (pre ++ resolvedIds h namelist ++
            List.replicate (m - (resolvedIds h namelist).length) h.garbage) ∧
        (namelist.foldl (assignStep h true) acc).i =
          pre.length + (resolvedIds h namelist).length := by
  intro namelist
  induction namelist with
  | nil =>
    intro acc pre m _ _ _ ha hi
    simp [resolvedIds, ha, hi]
  | cons x xs ih =>
    intro acc pre m hr hok hm ha hi
    rw [List.foldl_cons]
    have hr2 := assignStep_ok h true acc x hr (hok x (List.mem_cons_self x xs))
    have hok2 : ∀ t ∈ xs, lookupOk h t = true :=
      fun t ht => hok t (List.mem_cons_of_mem x ht)
    cases hn : isIndexName h x
    · have hs := assignStep_skip h true acc x hn
      have hm2 : xs.length ≤ m := by simp at hm; omega
      have := ih (assignStep h true acc x) pre m hr2 hok2 hm2 (hs.1.trans ha)
        (hs.2.trans hi)
      simpa [resolvedIds, List.filter_cons, hn] using this
    · have hs := assignStep_keep h acc x hr hn
      obtain ⟨m2, rfl⟩ : ∃ m2, m = m2 + 1 := by
        simp at hm
        exact ⟨m - 1, by omega⟩
      have hm2 : xs.length ≤ m2 := by simp at hm; omega
      have ha2 : (assignStep h true acc x).newOids =
          some ((pre ++ [lookupOid h x]) ++ List.replicate m2 h.garbage) := by
        rw [hs.1, ha, hi]
        simp only [OidArray.write, Option.map_some']
        rw [set_append_replicate]
      have hi2 : (assignStep h true acc x).i = (pre ++ [lookupOid h x]).length := by
        rw [hs.2, hi]; simp
      have := ih (assignStep h true acc x) _ m2 hr2 hok2 hm2 ha2 hi2
      constructor
      · rw [this.1]
        simp [resolvedIds, List.filter_cons, hn]
      · rw [this.2]
        simp [resolvedIds, List.filter_cons, hn]
        omega

theorem assign_fold_validate (h : Host) :
    ∀ (namelist : List String) (acc : AssignLoop),
      (namelist.foldl (assignStep h false) acc).newOids = acc.newOids ∧
        (namelist.foldl (assignStep h false) acc).i = acc.i := by
  intro namelist
  induction namelist with
  | nil => intro acc; exact ⟨rfl, rfl⟩
  | cons x xs ih =>
    intro acc
    rw [List.foldl_cons]
    have h1 := ih (assignStep h false acc x)
    have h2 := assignStep_validate h acc x
    exact ⟨h1.1.trans h2.1, h1.2.trans h2.2⟩

/-- Whatever the tokens are, one iteration moves the write index by at most
one and keeps the length of the block. -/
theorem assignStep_bounds (h : Host) (doit : Bool) (acc : AssignLoop)
    (curname : String) :
    (assignStep h doit acc curname).i ≤ acc.i + 1 ∧
      (assignStep h doit acc curname).newOids.map List.length =
        acc.newOids.map List.length := by
  cases hn : isIndexName h curname
  · have := assignStep_skip h doit acc curname hn
    rw [this.1, this.2]
    exact ⟨Nat.le_succ _, rfl⟩
  · cases hr : raised acc.log
    · cases doit
      · have := assignStep_validate h acc curname
        rw [this.1, this.2]
        exact ⟨Nat.le_succ _, rfl⟩
      · have := assignStep_keep h acc curname hr hn
        rw [this.1, this.2]
        refine ⟨le_refl _, ?_⟩
        cases acc.newOids <;> simp [OidArray.write]
    · rw [assignStep_raised h doit acc curname hr]
      exact ⟨Nat.le_succ _, rfl⟩

theorem assign_fold_bounds (h : Host) (doit : Bool) :
    ∀ (namelist : List String) (acc : AssignLoop),
      (namelist.foldl (assignStep h doit) acc).i ≤ acc.i + namelist.length ∧
        (namelist.foldl (assignStep h doit) acc).newOids.map List.length =
          acc.newOids.map List.length := by
  intro namelist
  induction namelist with
  | nil => intro acc; exact ⟨le_refl _, rfl⟩
  | cons x xs ih =>
    intro acc
    rw [List.foldl_cons]
    have h1 := ih (assignStep h doit acc x)
    have h2 := assignStep_bounds h doit acc x
    refine ⟨?_, h1.2.trans h2.2⟩
    simp only [List.length_cons]
    omega

/-- The static variables after `indexesAssign`, case by case. -/
theorem indexesAssign_state (h : Host) (ctx : Context) (s : State)
    (newval : String) (doit : Bool) (kind : IndexListKind) :
    (indexesAssign h ctx s newval doit kind).state =
      match h.SplitIdentifierString newval with
      | none => s
      | some namelist =>
        if ctx.valid then
          if raised (assignLoop h doit namelist).log then setInited s kind true
          else if doit then
            commitOids (setInited s kind true) kind (assignLoop h doit namelist).i
              (assignLoop h doit namelist).newOids
          else setInited s kind true
        else setInited s kind false := by
  unfold indexesAssign Context.valid assignLoop
  cases h.SplitIdentifierString newval with
  | none => rfl
  | some namelist =>
    cases hg : (ctx.MyBackendId == InvalidBackendId || !ctx.IsUnderPostmaster ||
        !ctx.IsTransactionState)
    · cases doit
      · simp only [hg, Bool.false_eq_true, if_false, Bool.not_false, if_true]
        split <;> rfl
      · simp only [hg, Bool.false_eq_true, if_false, Bool.not_false, if_true]
        split <;> rfl
    · simp [hg]

/-- The value returned by `indexesAssign`; none when it is left by `ERROR`. -/
theorem indexesAssign_ret (h : Host) (ctx : Context) (s : State)
    (newval : String) (doit : Bool) (kind : IndexListKind) :
    (indexesAssign h ctx s newval doit kind).ret =
      match h.SplitIdentifierString newval with
      | none => none
      | some namelist =>
        if ctx.valid = true ∧ raised (assignLoop h doit namelist).log = true then none
        else some newval := by
  unfold indexesAssign Context.valid assignLoop
  cases h.SplitIdentifierString newval with
  | none => rfl
  | some namelist =>
    cases hg : (ctx.MyBackendId == InvalidBackendId || !ctx.IsUnderPostmaster ||
        !ctx.IsTransactionState)
    · cases doit
      · simp only [hg, Bool.false_eq_true, if_false, Bool.not_false, true_and]
        split <;> rfl
      · simp only [hg, Bool.false_eq_true, if_false, Bool.not_false, true_and, if_true]
        split <;> rfl
    · simp [hg]

/-- The events of `indexesAssign`. -/
theorem indexesAssign_log (h : Host) (ctx : Context) (s : State)
    (newval : String) (doit : Bool) (kind : IndexListKind) :
    (indexesAssign h ctx s newval doit kind).log =
      match h.SplitIdentifierString newval with
      | none => []
      | some namelist =>
        if ctx.valid then
          if raised (assignLoop h doit namelist).log then
            (assignLoop h doit namelist).log
          else if doit = true ∧ (s.array kind).isSome = true then
            (assignLoop h doit namelist).log ++ [Event.free kind]
          else (assignLoop h doit namelist).log
        else [] := by
  have harr : ((setInited s kind true).array kind).isSome = (s.array kind).isSome := by
    rw [((setInited_frame s kind true).1 kind).1]
  unfold indexesAssign Context.valid assignLoop
  cases h.SplitIdentifierString newval with
  | none => rfl
  | some namelist =>
    cases hg : (ctx.MyBackendId == InvalidBackendId || !ctx.IsUnderPostmaster ||
        !ctx.IsTransactionState)
    · cases doit
      · simp only [hg, Bool.false_eq_true, if_false, Bool.not_false, if_true,
          Bool.false_and, false_and]
        split <;> rfl
      · simp only [hg, Bool.false_eq_true, if_false, Bool.not_false, if_true,
          Bool.true_and, true_and, harr]
        split <;> rfl
    · simp [hg]

theorem indexesAssign_raised_field (h : Host) (ctx : Context) (s : State)
    (newval : String) (doit : Bool) (kind : IndexListKind) :
    (indexesAssign h ctx s newval doit kind).raised =
      match h.SplitIdentifierString newval with
      | none => false
      | some namelist => ctx.valid && raised (assignLoop h doit namelist).log := by
  unfold indexesAssign Context.valid assignLoop
  cases h.SplitIdentifierString newval with
  | none => rfl
  | some namelist =>
    cases hg : (ctx.MyBackendId == InvalidBackendId || !ctx.IsUnderPostmaster ||
        !ctx.IsTransactionState)
    · cases doit
      · simp only [hg, Bool.false_eq_true, if_false, Bool.not_false, Bool.true_and]
        split
        · rename_i hr; rw [hr]
        · rename_i hr; simpa using hr
      · simp only [hg, Bool.false_eq_true, if_false, Bool.not_false, Bool.true_and,
          if_true]
        split
        · rename_i hr; rw [hr]
        · rename_i hr; simpa using hr
    · simp [hg]

theorem indexesAssign_raised (h : Host) (ctx : Context) (s : State)
    (newval : String) (doit : Bool) (kind : IndexListKind) :
    (indexesAssign h ctx s newval doit kind).raised =
        raised (indexesAssign h ctx s newval doit kind).log ∧
      (raised (indexesAssign h ctx s newval doit kind).log = true ↔
        ∃ namelist, h.SplitIdentifierString newval = some namelist ∧
          ctx.valid = true ∧ raised (assignLoop h doit namelist).log = true) := by
  have hfree : ∀ l : List Event, raised (l ++ [Event.free kind]) = raised l := by
    intro l; simp [raised_append, raised_cons, raised_nil, Event.isError]
  have hlog : raised (indexesAssign h ctx s newval doit kind).log =
      match h.SplitIdentifierString newval with
      | none => false
      | some namelist => ctx.valid && raised (assignLoop h doit namelist).log := by
    rw [indexesAssign_log]
    cases h.SplitIdentifierString newval with
    | none => rfl
    | some namelist =>
      cases hv : ctx.valid
      · simp [raised_nil]
      · simp only [if_true, Bool.true_and]
        cases hr : raised (assignLoop h doit namelist).log
        · simp only [Bool.false_eq_true, if_false]
          split
          · rw [hfree, hr]
          · rw [hr]
        · simp [hr]
  refine ⟨by rw [hlog, indexesAssign_raised_field], ?_⟩
  rw [hlog]
  cases h.SplitIdentifierString newval with
  | none => simp
  | some namelist => simp

/-- A text whose tokens are all looked up without `ERROR` is not refused by
`ERROR`. -/
theorem indexesAssign_textOk (h : Host) (ctx : Context) (s : State)
    (newval : String) (doit : Bool) (kind : IndexListKind)
    (hok : textOk h newval = true) :
    raised (indexesAssign h ctx s newval doit kind).log = false := by
  cases hr : raised (indexesAssign h ctx s newval doit kind).log
  · rfl
  · obtain ⟨namelist, hsp, _, hl⟩ := (indexesAssign_raised h ctx s newval doit kind).2.mp hr
    have hall : ∀ t ∈ namelist, lookupOk h t = true := by
      simpa [textOk, hsp] using hok
    have := assign_fold_ok h doit namelist
      { newOids := if doit then malloc h (namelist.length + 1) else none,
        i := 0, log := [] } raised_nil hall
    rw [assignLoop, this] at hl
    cases hl

/-- Whatever the mode and the context, `indexesAssign` leaves the raw texts
alone and touches no array, count or flag of another kind. -/
theorem indexesAssign_frame (h : Host) (ctx : Context) (s : State)
    (newval : String) (doit : Bool) (kind : IndexListKind) (k : IndexListKind) :
    (indexesAssign h ctx s newval doit kind).state.rawText k = s.rawText k ∧
    (k = kind ∨
      ((indexesAssign h ctx s newval doit kind).state.array k = s.array k ∧
        (indexesAssign h ctx s newval doit kind).state.count k = s.count k ∧
        (indexesAssign h ctx s newval doit kind).state.inited k = s.inited k)) := by
  have hs : ∀ b, (setInited s kind b).array k = s.array k ∧
      (setInited s kind b).count k = s.count k ∧
      (setInited s kind b).rawText k = s.rawText k ∧
      (k = kind ∨ (setInited s kind b).inited k = s.inited k) := by
    intro b
    exact (setInited_frame s kind b).1 k
  have hc : ∀ s2 i a, (commitOids s2 kind i a).rawText k = s2.rawText k ∧
      (commitOids s2 kind i a).inited k = s2.inited k ∧
      (k = kind ∨ ((commitOids s2 kind i a).array k = s2.array k ∧
        (commitOids s2 kind i a).count k = s2.count k)) := by
    intro s2 i a
    have := (commitOids_frame s2 kind i a).1 k
    exact ⟨this.2.1, this.1, this.2.2⟩
  have hset : ∀ b, (setInited s kind b).rawText k = s.rawText k ∧
      (k = kind ∨ ((setInited s kind b).array k = s.array k ∧
        (setInited s kind b).count k = s.count k ∧
        (setInited s kind b).inited k = s.inited k)) := by
    intro b
    refine ⟨(hs b).2.2.1, ?_⟩
    rcases (hs b).2.2.2 with h1 | h1
    · exact Or.inl h1
    · exact Or.inr ⟨(hs b).1, (hs b).2.1, h1⟩
  rw [indexesAssign_state]
  split
  · exact ⟨rfl, Or.inr ⟨rfl, rfl, rfl⟩⟩
  · split
    · split
      · exact hset true
      · split
        · have h1 := hc (setInited s kind true)
          refine ⟨(h1 _ _).1.trans (hs true).2.2.1, ?_⟩
          rcases (h1 (assignLoop h doit _).i (assignLoop h doit _).newOids).2.2 with h2 | h2
          · exact Or.inl h2
          · rcases (hs true).2.2.2 with h3 | h3
            · exact Or.inl h3
            · exact Or.inr ⟨h2.1.trans (hs true).1, h2.2.trans (hs true).2.1,
                (h1 _ _).2.1.trans h3⟩
        · exact hset true
    · exact hset false

/-- In a valid context, apply mode on a text that splits into tokens whose
lookups complete stores the resolved ids and their number for the kind, sets
its flag, and reports no `ERROR`. -/
theorem indexesAssign_apply_valid (h : Host) (ctx : Context) (s : State)
    (newval : String) (kind : IndexListKind) (namelist : List String)
    (hsplit : h.SplitIdentifierString newval = some namelist)
    (hctx : ctx.valid = true)
    (hok : ∀ t ∈ namelist, lookupOk h t = true) :
    (indexesAssign h ctx s newval true kind).state.inited kind = true ∧
      (indexesAssign h ctx s newval true kind).state.count kind =
        (resolvedIds h namelist).length ∧
      (indexesAssign h ctx s newval true kind).state.array kind =
        some (resolvedIds h namelist ++
          List.replicate (namelist.length + 1 - (resolvedIds h namelist).length)
            h.garbage) ∧
      (indexesAssign h ctx s newval true kind).state.members kind =
        resolvedIds h namelist ∧
      raised (indexesAssign h ctx s newval true kind).log = false := by
  have hf := assign_fold_apply h namelist
    { newOids := malloc h (namelist.length + 1), i := 0, log := [] } []
    (namelist.length + 1) raised_nil hok (Nat.le_succ _) (by simp [malloc]) rfl
  simp only [List.nil_append, List.length_nil, Nat.zero_add] at hf
  have hr : raised (assignLoop h true namelist).log = false :=
    assign_fold_ok h true namelist _ raised_nil hok
  have hloop : assignLoop h true namelist =
      namelist.foldl (assignStep h true)
        { newOids := malloc h (namelist.length + 1), i := 0, log := [] } := rfl
  have hraise := indexesAssign_textOk h ctx s newval true kind
    (by simpa [textOk, hsplit] using hok)
  rw [indexesAssign_state, hsplit]
  simp only [hctx, if_true, hr, Bool.false_eq_true, if_false]
  have hc := commitOids_frame (setInited s kind true) kind
    (assignLoop h true namelist).i (assignLoop h true namelist).newOids
  rw [hloop] at hc
  rw [hloop]
  refine ⟨?_, ?_, ?_, ?_, hraise⟩
  · rw [(hc.1 kind).1]
    exact (setInited_frame s kind true).2.1
  · rw [hc.2.2.1, hf.2]
  · rw [hc.2.1, hf.1]
  · rw [State.members, hc.2.1, hc.2.2.1, hf.1, hf.2]
    exact membersOf_append _ _

/-! ## The events of indexesAssign -/

theorem assignStep_no_hook (h : Host) (doit : Bool) (acc : AssignLoop)
    (curname : String) (hacc : ∀ e ∈ acc.log, e.isHook = false) :
    ∀ e ∈ (assignStep h doit acc curname).log, e.isHook = false := by
  have h0 := append_no_hook acc.log (Event.lookup curname) hacc rfl
  unfold assignStep
  split
  · exact hacc
  · split
    · rename_i msg hl
      intro e he
      simp only [List.mem_append, List.mem_cons, List.mem_singleton,
        List.not_mem_nil, or_false] at he
      rcases he with he | he | he
      · exact hacc e he
      · rw [he]; rfl
      · rw [he]; rfl
    · rename_i indexOid hl
      have h3 := append_no_hook _ (Event.relkind indexOid) h0 rfl
      by_cases h1 : indexOid = InvalidOid
      · cases doit
        · simp only [h1, if_true]
          exact append_no_hook _ (warnNotExist curname) h0 rfl
        · simp only [h1, if_true, Bool.true_eq_false, if_false]
          exact h0
      · by_cases h2 : h.get_rel_relkind indexOid = RELKIND_INDEX
        · cases doit
          · simp only [h1, h2, if_false, ne_eq, not_true_eq_false, Bool.false_eq_true]
            exact h3
          · simp only [h1, h2, if_false, ne_eq, not_true_eq_false, if_true]
            exact h3
        · cases doit
          · simp only [h1, h2, if_false, ne_eq, not_false_eq_true, if_true]
            exact append_no_hook _ (warnNotIndex curname) h3 rfl
          · simp only [h1, h2, if_false, ne_eq, not_false_eq_true, if_true,
              Bool.true_eq_false]
            exact h3

theorem assign_fold_no_hook (h : Host) (doit : Bool) :
    ∀ (namelist : List String) (acc : AssignLoop),
      (∀ e ∈ acc.log, e.isHook = false) →
      ∀ e ∈ (namelist.foldl (assignStep h doit) acc).log, e.isHook = false := by
  intro namelist
  induction namelist with
  | nil => intro acc hacc; exact hacc
  | cons x xs ih =>
    intro acc hacc
    rw [List.foldl_cons]
    exact ih _ (assignStep_no_hook h doit acc x hacc)

theorem indexesAssign_no_hook (h : Host) (ctx : Context) (s : State)
    (newval : String) (doit : Bool) (kind : IndexListKind) :
    ∀ e ∈ (indexesAssign h ctx s newval doit kind).log, e.isHook = false := by
  have hloop : ∀ namelist, ∀ e ∈ (assignLoop h doit namelist).log, e.isHook = false := by
    intro namelist
    exact assign_fold_no_hook h doit namelist _ (by intro e he; cases he)
  rw [indexesAssign_log]
  split
  · intro e he; cases he
  · split
    · split
      · exact hloop _
      · split
        · exact append_no_hook _ _ (hloop _) rfl
        · exact hloop _
    · intro e he; cases he

/-! ## The warnings of indexesAssign -/

theorem assignStep_warnings (h : Host) (doit : Bool) (acc : AssignLoop)
    (curname : String) (hr : raised acc.log = false)
    (hok : lookupOk h curname = true) :
    (assignStep h doit acc curname).log.filter Event.isWarning =
      acc.log.filter Event.isWarning ++
        (if doit = false ∧ isIndexName h curname = false then [warningFor h curname]
          else []) := by
  unfold assignStep
  rw [if_neg (by simp [hr])]
  split
  · rename_i msg hl
    rw [(lookupOid_raise h curname msg hl).2.1] at hok
    cases hok
  · rename_i indexOid hl
    have ho := (lookupOid_found h curname indexOid hl).1
    by_cases h1 : indexOid = InvalidOid
    · cases doit <;>
        simp [h1, ho, isIndexName, warningFor, List.filter_append, List.filter_cons,
          Event.isWarning, warnNotExist]
    · by_cases h2 : h.get_rel_relkind indexOid = RELKIND_INDEX
      · cases doit <;>
          simp [h1, h2, ho, isIndexName, warningFor, List.filter_append,
            List.filter_cons, Event.isWarning]
      · cases doit <;>
          simp [h1, h2, ho, isIndexName, warningFor, List.filter_append,
            List.filter_cons, Event.isWarning, warnNotIndex]

theorem assign_fold_warnings (h : Host) (doit : Bool) :
    ∀ (namelist : List String) (acc : AssignLoop), raised acc.log = false →
      (∀ t ∈ namelist, lookupOk h t = true) →
      (namelist.foldl (assignStep h doit) acc).log.filter Event.isWarning =
        acc.log.filter Event.isWarning ++
          (if doit = false then
            (namelist.filter (fun t => !isIndexName h t)).map (warningFor h)
          else []) := by
  intro namelist
  induction namelist with
  | nil => intro acc _ _; cases doit <;> simp
  | cons x xs ih =>
    intro acc hr hok
    have hx := hok x (List.mem_cons_self x xs)
    rw [List.foldl_cons, ih _ (assignStep_ok h doit acc x hr hx)
      (fun t ht => hok t (List.mem_cons_of_mem x ht)),
      assignStep_warnings h doit acc x hr hx]
    cases doit
    · cases hn : isIndexName h x <;> simp [List.filter_cons, hn]
    · simp

/-- The warnings of a call whose lookups all complete. -/
theorem assign_warnings_complete (h : Host) (ctx : Context) (s : State)
    (newval : String) (doit : Bool) (kind : IndexListKind)
    (namelist : List String)
    (hsplit : h.SplitIdentifierString newval = some namelist)
    (hctx : ctx.valid = true) (hok : ∀ t ∈ namelist, lookupOk h t = true) :
    (indexesAssign h ctx s newval doit kind).log.filter Event.isWarning =
      if doit = false then
        (namelist.filter (fun t => !isIndexName h t)).map (warningFor h)
      else [] := by
  have hr : raised (assignLoop h doit namelist).log = false :=
    assign_fold_ok h doit namelist _ raised_nil hok
  have hw := assign_fold_warnings h doit namelist
    { newOids := if doit then malloc h (namelist.length + 1) else none,
      i := 0, log := [] } raised_nil hok
  simp only [List.filter_nil, List.nil_append] at hw
  rw [indexesAssign_log, hsplit]
  simp only [hctx, if_true, hr, Bool.false_eq_true, if_false]
  split
  · rw [List.filter_append, assignLoop, hw]
    simp [Event.isWarning]
  · rw [assignLoop, hw]

/-! ## Repeating a call -/

theorem setInited_commit_idem (s : State) (kind : IndexListKind) (i : Nat)
    (a : OidArray) :
    commitOids (setInited (commitOids (setInited s kind true) kind i a) kind true)
        kind i a =
      commitOids (setInited s kind true) kind i a := by
  cases kind <;> rfl

theorem setInited_idem (s : State) (kind : IndexListKind) (b : Bool) :
    setInited (setInited s kind b) kind b = setInited s kind b := by
  cases kind <;> rfl

/-- A second `indexesAssign` with the same arguments, over the same catalog,
leaves the state as the first call left it. -/
theorem indexesAssign_idem (h : Host) (ctx : Context) (s : State)
    (newval : String) (doit : Bool) (kind : IndexListKind) :
    (indexesAssign h ctx (indexesAssign h ctx s newval doit kind).state newval doit
        kind).state =
      (indexesAssign h ctx s newval doit kind).state := by
  rw [indexesAssign_state h ctx (indexesAssign h ctx s newval doit kind).state,
    indexesAssign_state h ctx s]
  cases h.SplitIdentifierString newval with
  | none => rfl
  | some namelist =>
    cases ctx.valid
    · simp only [Bool.false_eq_true, if_false]
      exact setInited_idem s kind false
    · cases hr : raised (assignLoop h doit namelist).log
      · cases doit
        · simp only [hr, if_true, Bool.false_eq_true, if_false]
          exact setInited_idem s kind true
        · simp only [hr, if_true, Bool.false_eq_true, if_false]
          exact setInited_commit_idem s kind _ _
      · simp only [hr, if_true]
        exact setInited_idem s kind true

/-! ## lateInit, line by line -/

theorem lateInit_eq (h : Host) (ctx : Context) (s : State) :
    lateInit h ctx s =
      lateInitKind h ctx DisabledKind
        (lateInitKind h ctx EnabledKind (lateInitKind h ctx OnlyKind (s, []))) := by
  unfold lateInit lateInitKind
  simp only [State.inited, State.rawText, raised_nil, Bool.false_eq_true, if_false,
    List.nil_append]
  cases s.plantuner_only_inited
  · simp only [Bool.not_false, if_true]
    split
    · rename_i hr
      simp only [hr, if_true]
    · rfl
  · simp only [Bool.not_true, Bool.false_eq_true, if_false, raised_nil]

theorem lateInitKind_raised (h : Host) (ctx : Context) (kind : IndexListKind)
    (p : State × List Event) (hr : raised p.2 = true) :
    lateInitKind h ctx kind p = p := by
  simp [lateInitKind, hr]

/-- A line of `lateInit` changes nothing for a kind whose flag is set. -/
theorem lateInitKind_inited (h : Host) (ctx : Context) (kind : IndexListKind)
    (p : State × List Event) (hi : p.1.inited kind = true) :
    lateInitKind h ctx kind p = p := by
  simp [lateInitKind, hi]

/-- A line of `lateInit` leaves the raw texts and the other kinds alone. -/
theorem lateInitKind_frame (h : Host) (ctx : Context) (kind : IndexListKind)
    (p : State × List Event) (k : IndexListKind) :
    (lateInitKind h ctx kind p).1.rawText k = p.1.rawText k ∧
    (k = kind ∨
      ((lateInitKind h ctx kind p).1.array k = p.1.array k ∧
        (lateInitKind h ctx kind p).1.count k = p.1.count k ∧
        (lateInitKind h ctx kind p).1.inited k = p.1.inited k)) := by
  unfold lateInitKind
  split
  · exact ⟨rfl, Or.inr ⟨rfl, rfl, rfl⟩⟩
  · split
    · exact indexesAssign_frame h ctx p.1 _ true kind k
    · exact ⟨rfl, Or.inr ⟨rfl, rfl, rfl⟩⟩

/-- A line of `lateInit` appends its events, none of them a call of the
previous hook. -/
theorem lateInitKind_log (h : Host) (ctx : Context) (kind : IndexListKind)
    (p : State × List Event) :
    ∃ l, (lateInitKind h ctx kind p).2 = p.2 ++ l ∧ ∀ e ∈ l, e.isHook = false := by
  unfold lateInitKind
  split
  · exact ⟨[], by simp, by intro e he; cases he⟩
  · split
    · exact ⟨_, rfl, indexesAssign_no_hook h ctx p.1 _ true kind⟩
    · exact ⟨[], by simp, by intro e he; cases he⟩

/-- A line of `lateInit` reports no `ERROR` when the flag of its kind is set
or the lookups of its raw text complete. -/
theorem lateInitKind_ok (h : Host) (ctx : Context) (kind : IndexListKind)
    (p : State × List Event) (hr : raised p.2 = false)
    (hok : p.1.inited kind = true ∨ textOk h (p.1.rawText kind) = true) :
    raised (lateInitKind h ctx kind p).2 = false := by
  unfold lateInitKind
  rw [if_neg (by simp [hr])]
  split
  · rename_i hi
    rcases hok with h1 | h1
    · simp [h1] at hi
    · simp only [raised_append, hr, Bool.false_or]
      exact indexesAssign_textOk h ctx p.1 _ true kind h1
  · exact hr

/-- A line of `lateInit` in a valid context, for a kind that is not
initialized and whose raw text splits into tokens whose lookups complete. -/
theorem lateInitKind_resolves (h : Host) (ctx : Context) (kind : IndexListKind)
    (p : State × List Event) (namelist : List String)
    (hr : raised p.2 = false) (hctx : ctx.valid = true)
    (hi : p.1.inited kind = false)
    (hsplit : h.SplitIdentifierString (p.1.rawText kind) = some namelist)
    (hok : ∀ t ∈ namelist, lookupOk h t = true) :
    (lateInitKind h ctx kind p).1.inited kind = true ∧
      (lateInitKind h ctx kind p).1.count kind = (resolvedIds h namelist).length ∧
      (lateInitKind h ctx kind p).1.members kind = resolvedIds h namelist ∧
      (lateInitKind h ctx kind p).1.rawText kind = p.1.rawText kind ∧
      raised (lateInitKind h ctx kind p).2 = false := by
  have ha := indexesAssign_apply_valid h ctx p.1 (p.1.rawText kind) kind namelist
    hsplit hctx hok
  have hf := (indexesAssign_frame h ctx p.1 (p.1.rawText kind) true kind kind).1
  have hk := lateInitKind_ok h ctx kind p hr
    (Or.inr (by simpa [textOk, hsplit] using hok))
  refine ⟨?_, ?_, ?_, ?_, hk⟩ <;>
    simp only [lateInitKind, hr, hi, Bool.false_eq_true, if_false, Bool.not_false,
      if_true]
  · exact ha.1
  · exact ha.2.1
  · exact ha.2.2.2.1
  · exact hf

theorem lateInitOk_iff (h : Host) (s : State) :
    lateInitOk h s = true ↔
      ∀ k : IndexListKind, s.inited k = true ∨ textOk h (s.rawText k) = true := by
  simp only [lateInitOk, Bool.and_eq_true, Bool.or_eq_true]
  constructor
  · rintro ⟨⟨h1, h2⟩, h3⟩ k
    cases k
    · exact h2
    · exact h3
    · exact h1
  · intro hk
    exact ⟨⟨hk OnlyKind, hk EnabledKind⟩, hk DisabledKind⟩

/-- The flag and the raw text of a kind when the line of another kind is
reached are those `lateInit` started with. -/
theorem lateInitKind_other (h : Host) (ctx : Context) (kind k : IndexListKind)
    (p : State × List Event) (hne : k ≠ kind) :
    (lateInitKind h ctx kind p).1.inited k = p.1.inited k ∧
      (lateInitKind h ctx kind p).1.count k = p.1.count k ∧
      (lateInitKind h ctx kind p).1.array k = p.1.array k ∧
      (lateInitKind h ctx kind p).1.members k = p.1.members k ∧
      (lateInitKind h ctx kind p).1.rawText k = p.1.rawText k := by
  have hf := lateInitKind_frame h ctx kind p k
  have h2 := hf.2.resolve_left hne
  refine ⟨h2.2.2, h2.2.1, h2.1, ?_, hf.1⟩
  rw [State.members, State.members, h2.1, h2.2.1]

/-- With the lookups of every raw text it resolves completing, `lateInit`
returns. -/
theorem lateInit_returns (h : Host) (ctx : Context) (s : State)
    (hok : lateInitOk h s = true) : raised (lateInit h ctx s).2 = false := by
  have hk := (lateInitOk_iff h s).mp hok
  rw [lateInit_eq]
  have h1 := lateInitKind_ok h ctx OnlyKind (s, []) raised_nil (hk OnlyKind)
  have o1 := lateInitKind_other h ctx OnlyKind EnabledKind (s, []) (by decide)
  have h2 := lateInitKind_ok h ctx EnabledKind _ h1
    (by rw [o1.1, o1.2.2.2.2]; exact hk EnabledKind)
  have o2 := lateInitKind_other h ctx OnlyKind DisabledKind (s, []) (by decide)
  have o3 := lateInitKind_other h ctx EnabledKind DisabledKind
    (lateInitKind h ctx OnlyKind (s, [])) (by decide)
  exact lateInitKind_ok h ctx DisabledKind _ h2
    (by rw [o3.1, o3.2.2.2.2, o2.1, o2.2.2.2.2]; exact hk DisabledKind)

/-- After `lateInit` in a valid context, with the lookups of every raw text
it resolves completing, a kind that was not initialized and whose raw text
splits is initialized with the resolution of that text. -/
theorem lateInit_resolves (h : Host) (ctx : Context) (s : State)
    (kind : IndexListKind) (namelist : List String)
    (hctx : ctx.valid = true) (hi : s.inited kind = false)
    (hsplit : h.SplitIdentifierString (s.rawText kind) = some namelist)
    (hok : lateInitOk h s = true) :
    (lateInit h ctx s).1.inited kind = true ∧
      (lateInit h ctx s).1.count kind = (resolvedIds h namelist).length ∧
      (lateInit h ctx s).1.members kind = resolvedIds h namelist ∧
      (lateInit h ctx s).1.rawText kind = s.rawText kind ∧
      raised (lateInit h ctx s).2 = false := by
  have hk := (lateInitOk_iff h s).mp hok
  have hall : ∀ t ∈ namelist, lookupOk h t = true := by
    rcases hk kind with h1 | h1
    · rw [hi] at h1; cases h1
    · simpa [textOk, hsplit] using h1
  have hret := lateInit_returns h ctx s hok
  have h1 := lateInitKind_ok h ctx OnlyKind (s, []) raised_nil (hk OnlyKind)
  have o1 := lateInitKind_other h ctx OnlyKind EnabledKind (s, []) (by decide)
  have h2 := lateInitKind_ok h ctx EnabledKind _ h1
    (by rw [o1.1, o1.2.2.2.2]; exact hk EnabledKind)
  rw [lateInit_eq] at hret ⊢
  cases kind
  · have r := lateInitKind_resolves h ctx EnabledKind _ namelist h1 hctx
      (by rw [o1.1]; exact hi) (by rw [o1.2.2.2.2]; exact hsplit) hall
    have o3 := lateInitKind_other h ctx DisabledKind EnabledKind
      (lateInitKind h ctx EnabledKind (lateInitKind h ctx OnlyKind (s, []))) (by decide)
    exact ⟨o3.1.trans r.1, o3.2.1.trans r.2.1, o3.2.2.2.1.trans r.2.2.1,
      (o3.2.2.2.2.trans r.2.2.2.1).trans o1.2.2.2.2, hret⟩
  · have o2 := lateInitKind_other h ctx OnlyKind DisabledKind (s, []) (by decide)
    have o3 := lateInitKind_other h ctx EnabledKind DisabledKind
      (lateInitKind h ctx OnlyKind (s, [])) (by decide)
    have r := lateInitKind_resolves h ctx DisabledKind _ namelist h2 hctx
      (by rw [o3.1, o2.1]; exact hi) (by rw [o3.2.2.2.2, o2.2.2.2.2]; exact hsplit) hall
    exact ⟨r.1, r.2.1, r.2.2.1, (r.2.2.2.1.trans o3.2.2.2.2).trans o2.2.2.2.2, hret⟩
  · have r := lateInitKind_resolves h ctx OnlyKind (s, []) namelist raised_nil hctx
      hi hsplit hall
    have o2 := lateInitKind_other h ctx EnabledKind OnlyKind
      (lateInitKind h ctx OnlyKind (s, [])) (by decide)
    have o3 := lateInitKind_other h ctx DisabledKind OnlyKind
      (lateInitKind h ctx EnabledKind (lateInitKind h ctx OnlyKind (s, []))) (by decide)
    exact ⟨(o3.1.trans o2.1).trans r.1, (o3.2.1.trans o2.2.1).trans r.2.1,
      (o3.2.2.2.1.trans o2.2.2.2.1).trans r.2.2.1,
      (o3.2.2.2.2.trans o2.2.2.2.2).trans r.2.2.2.1, hret⟩

theorem lateInit_no_hook (h : Host) (ctx : Context) (s : State) :
    ∀ e ∈ (lateInit h ctx s).2, e.isHook = false := by
  rw [lateInit_eq]
  obtain ⟨l1, e1, n1⟩ := lateInitKind_log h ctx OnlyKind (s, [])
  obtain ⟨l2, e2, n2⟩ := lateInitKind_log h ctx EnabledKind
    (lateInitKind h ctx OnlyKind (s, []))
  obtain ⟨l3, e3, n3⟩ := lateInitKind_log h ctx DisabledKind
    (lateInitKind h ctx EnabledKind (lateInitKind h ctx OnlyKind (s, [])))
  rw [e3, e2, e1]
  intro e he
  simp only [List.nil_append, List.mem_append] at he
  rcases he with (he | he) | he
  · exact n1 e he
  · exact n2 e he
  · exact n3 e he

/-- With the three flags set `lateInit` does nothing. -/
theorem lateInit_all_inited (h : Host) (ctx : Context) (s : State)
    (h1 : s.plantuner_only_inited = true) (h2 : s.plantuner_enable_inited = true)
    (h3 : s.plantuner_disable_inited = true) : lateInit h ctx s = (s, []) := by
  simp [lateInit, h1, h2, h3, raised_nil]

/-- In a valid context, with the lookups of every raw text it resolves
completing, `lateInit` leaves a kind whose raw text splits with its flag
set. -/
theorem lateInit_sets_flag (h : Host) (ctx : Context) (s : State)
    (kind : IndexListKind) (hctx : ctx.valid = true)
    (hsplit : (h.SplitIdentifierString (s.rawText kind)).isSome = true)
    (hok : lateInitOk h s = true) :
    (lateInit h ctx s).1.inited kind = true := by
  cases hi : s.inited kind
  · cases hsp : h.SplitIdentifierString (s.rawText kind) with
    | none => rw [hsp] at hsplit; cases hsplit
    | some namelist => exact (lateInit_resolves h ctx s kind namelist hctx hi hsp hok).1
  · have other : ∀ (k2 : IndexListKind) (p : State × List Event), kind ≠ k2 →
        (lateInitKind h ctx k2 p).1.inited kind = p.1.inited kind := by
      intro k2 p hne
      exact (lateInitKind_other h ctx k2 kind p hne).1
    have self : ∀ p : State × List Event, p.1.inited kind = true →
        (lateInitKind h ctx kind p).1.inited kind = true := by
      intro p h0
      rw [lateInitKind_inited h ctx kind p h0]; exact h0
    rw [lateInit_eq]
    cases kind
    · rw [other DisabledKind _ (by decide)]
      exact self _ ((other OnlyKind (s, []) (by decide)).trans hi)
    · exact self _ ((other EnabledKind _ (by decide)).trans
        ((other OnlyKind (s, []) (by decide)).trans hi))
    · rw [other DisabledKind _ (by decide), other EnabledKind _ (by decide)]
      exact self (s, []) hi

/-! ## Counts and block lengths -/

theorem indexFilter_state (h : Host) (ctx : Context) (s : State)
    (mem : Ptr → IndexOptInfo) (root : Ptr) (relationObjectId : Oid)
    (inhparent : Bool) (rel : RelOptInfo) :
    (indexFilter h ctx s mem root relationObjectId inhparent rel).1 =
        (lateInit h ctx s).1 ∧
      (indexFilter h ctx s mem root relationObjectId inhparent rel).2.2 =
        (lateInit h ctx s).2 := by
  unfold indexFilter
  simp only []
  split <;> exact ⟨rfl, rfl⟩

/-- The relation info `indexFilter` leaves when `lateInit` returns. -/
theorem indexFilter_rel (h : Host) (ctx : Context) (s : State)
    (mem : Ptr → IndexOptInfo) (root : Ptr) (relationObjectId : Oid)
    (inhparent : Bool) (rel : RelOptInfo)
    (hret : raised (lateInit h ctx s).2 = false) :
    (indexFilter h ctx s mem root relationObjectId inhparent rel).2.1 =
      { rel with indexlist := filterList (lateInit h ctx s).1 mem rel.indexlist } := by
  simp [indexFilter, hret]

/-- The relation info is not touched when `lateInit` is left by `ERROR`. -/
theorem indexFilter_rel_raised (h : Host) (ctx : Context) (s : State)
    (mem : Ptr → IndexOptInfo) (root : Ptr) (relationObjectId : Oid)
    (inhparent : Bool) (rel : RelOptInfo)
    (hret : raised (lateInit h ctx s).2 = true) :
    (indexFilter h ctx s mem root relationObjectId inhparent rel).2.1 = rel := by
  simp [indexFilter, hret]

theorem resolvedIds_length_le (h : Host) (namelist : List String) :
    (resolvedIds h namelist).length ≤ namelist.length := by
  simp only [resolvedIds, List.length_map]
  exact List.length_filter_le _ _

/-- The loop of an apply-mode call ends with a write index of at most the
number of tokens and a block of that number plus one entries. -/
theorem assignLoop_bounds (h : Host) (namelist : List String) :
    (assignLoop h true namelist).i ≤ namelist.length ∧
      ∃ cells, (assignLoop h true namelist).newOids = some cells ∧
        cells.length = namelist.length + 1 := by
  have hb := assign_fold_bounds h true namelist
    { newOids := malloc h (namelist.length + 1), i := 0, log := [] }
  have hl : assignLoop h true namelist =
      namelist.foldl (assignStep h true)
        { newOids := malloc h (namelist.length + 1), i := 0, log := [] } := rfl
  rw [hl]
  refine ⟨by simpa using hb.1, ?_⟩
  have h2 := hb.2
  simp only [malloc, Option.map_some', List.length_replicate] at h2
  cases hc : (namelist.foldl (assignStep h true)
      { newOids := some (List.replicate (namelist.length + 1) h.garbage), i := 0,
        log := [] }).newOids with
  | none => rw [hc] at h2; cases h2
  | some cells =>
    rw [hc] at h2
    simp only [Option.map_some', Option.some.injEq] at h2
    exact ⟨cells, by simp [malloc, hc], h2⟩

/-- A call of `indexesAssign` leaves the block and the count of its kind as
they were, unless it is an apply-mode call in a valid context on a text that
splits and it is not left by `ERROR`. -/
theorem indexesAssign_own (h : Host) (ctx : Context) (s : State)
    (newval : String) (doit : Bool) (kind : IndexListKind) :
    ((indexesAssign h ctx s newval doit kind).state.array kind = s.array kind ∧
        (indexesAssign h ctx s newval doit kind).state.count kind = s.count kind) ∨
      (∃ namelist, h.SplitIdentifierString newval = some namelist ∧
        ctx.valid = true ∧ doit = true ∧
        (indexesAssign h ctx s newval doit kind).state.array kind =
          (assignLoop h true namelist).newOids ∧
        (indexesAssign h ctx s newval doit kind).state.count kind =
          (assignLoop h true namelist).i) := by
  have hset : ∀ b, (setInited s kind b).array kind = s.array kind ∧
      (setInited s kind b).count kind = s.count kind := by
    intro b
    have := (setInited_frame s kind b).1 kind
    exact ⟨this.1, this.2.1⟩
  cases hsp : h.SplitIdentifierString newval with
  | none =>
    left
    rw [indexesAssign_state, hsp]
    exact ⟨rfl, rfl⟩
  | some namelist =>
    cases hv : ctx.valid
    · left
      rw [indexesAssign_state, hsp]
      simp only [hv, Bool.false_eq_true, if_false]
      exact hset false
    · cases hr : raised (assignLoop h doit namelist).log
      · cases doit
        · left
          rw [indexesAssign_state, hsp]
          simp only [hv, hr, if_true, Bool.false_eq_true, if_false]
          exact hset true
        · right
          refine ⟨namelist, rfl, rfl, rfl, ?_, ?_⟩
          · rw [indexesAssign_state, hsp]
            simp only [hv, hr, if_true, Bool.false_eq_true, if_false]
            exact (commitOids_frame _ kind _ _).2.1
          · rw [indexesAssign_state, hsp]
            simp only [hv, hr, if_true, Bool.false_eq_true, if_false]
            exact (commitOids_frame _ kind _ _).2.2.1
      · left
        rw [indexesAssign_state, hsp]
        simp only [hv, hr, if_true]
        exact hset true

theorem indexesAssign_wellSized (h : Host) (ctx : Context) (s : State)
    (newval : String) (doit : Bool) (kind : IndexListKind) (hs : s.wellSized) :
    (indexesAssign h ctx s newval doit kind).state.wellSized := by
  intro k
  rcases (indexesAssign_frame h ctx s newval doit kind k).2 with hk | hk
  · subst hk
    rcases indexesAssign_own h ctx s newval doit k with ho | ⟨namelist, _, _, _, ha, hc⟩
    · rw [ho.1, ho.2]; exact hs k
    · obtain ⟨hi, cells, hcells, hlen⟩ := assignLoop_bounds h namelist
      rw [ha, hc, hcells]
      simp only [arrayHolds]
      omega
  · rw [hk.1, hk.2.1]; exact hs k

theorem lateInitKind_wellSized (h : Host) (ctx : Context) (kind : IndexListKind)
    (p : State × List Event) (hs : p.1.wellSized) :
    (lateInitKind h ctx kind p).1.wellSized := by
  unfold lateInitKind
  split
  · exact hs
  · split
    · exact indexesAssign_wellSized h ctx p.1 _ true kind hs
    · exact hs

theorem lateInit_wellSized (h : Host) (ctx : Context) (s : State)
    (hs : s.wellSized) : (lateInit h ctx s).1.wellSized := by
  rw [lateInit_eq]
  exact lateInitKind_wellSized h ctx _ _
    (lateInitKind_wellSized h ctx _ _ (lateInitKind_wellSized h ctx _ (s, []) hs))

theorem setRawText_wellSized (s : State) (kind : IndexListKind) (newval : String)
    (hs : s.wellSized) : (setRawText s kind newval).wellSized := by
  intro k
  have := hs k
  cases kind <;> cases k <;> exact this

theorem runCalls_wellSized (h : Host) :
    ∀ (calls : List Call) (s : State), s.wellSized → (runCalls h s calls).wellSized := by
  intro calls
  induction calls with
  | nil => intro s hs; exact hs
  | cons c cs ih =>
    intro s hs
    unfold runCalls
    rw [List.foldl_cons]
    apply ih
    cases c with
    | assign ctx newval doit kind => exact indexesAssign_wellSized h ctx s newval doit kind hs
    | setRaw kind newval => exact setRawText_wellSized s kind newval hs
    | late ctx => exact lateInit_wellSized h ctx s hs
    | filter ctx mem root relationObjectId inhparent rel =>
      show (indexFilter h ctx s mem root relationObjectId inhparent rel).1.wellSized
      rw [(indexFilter_state h ctx s mem root relationObjectId inhparent rel).1]
      exact lateInit_wellSized h ctx s hs

theorem init_wellSized : State.init.wellSized := by
  intro k
  cases k <;> simp [State.init, State.array, State.count, arrayHolds]

theorem arrayHolds_read (a : OidArray) (n i : Nat) (ha : arrayHolds a n)
    (hi : i < n) : ∃ cells, a = some cells ∧ i < cells.length := by
  cases a with
  | none => simp only [arrayHolds] at ha; omega
  | some cells =>
    simp only [arrayHolds] at ha
    exact ⟨cells, rfl, by omega⟩

theorem storedFromText_congr (h : Host) (s1 s2 : State) (k : IndexListKind)
    (ha : s2.array k = s1.array k) (hc : s2.count k = s1.count k)
    (hs : storedFromText h s1 k) : storedFromText h s2 k := by
  obtain ⟨text, namelist, h1, h2, cells, h3, h4⟩ := hs
  exact ⟨text, namelist, h1, by rw [hc]; exact h2, cells, by rw [ha]; exact h3, h4⟩

/-- A call of `indexesAssign` leaves the block and count of a kind as they
were, or stores them from its text. -/
theorem indexesAssign_stores (h : Host) (ctx : Context) (s : State)
    (newval : String) (doit : Bool) (kind k : IndexListKind) :
    ((indexesAssign h ctx s newval doit kind).state.array k = s.array k ∧
        (indexesAssign h ctx s newval doit kind).state.count k = s.count k) ∨
      storedFromText h (indexesAssign h ctx s newval doit kind).state k := by
  rcases (indexesAssign_frame h ctx s newval doit kind k).2 with hk | hk
  · subst hk
    rcases indexesAssign_own h ctx s newval doit k with ho | ⟨namelist, hsp, _, _, ha, hc⟩
    · exact Or.inl ho
    · obtain ⟨hi, cells, hcells, hlen⟩ := assignLoop_bounds h namelist
      exact Or.inr ⟨newval, namelist, hsp, by rw [hc]; exact hi, cells,
        by rw [ha]; exact hcells, hlen⟩
  · exact Or.inl ⟨hk.1, hk.2.1⟩

theorem lateInitKind_stores (h : Host) (ctx : Context) (kind : IndexListKind)
    (p : State × List Event) (k : IndexListKind) :
    ((lateInitKind h ctx kind p).1.array k = p.1.array k ∧
        (lateInitKind h ctx kind p).1.count k = p.1.count k) ∨
      storedFromText h (lateInitKind h ctx kind p).1 k := by
  unfold lateInitKind
  split
  · exact Or.inl ⟨rfl, rfl⟩
  · split
    · exact indexesAssign_stores h ctx p.1 _ true kind k
    · exact Or.inl ⟨rfl, rfl⟩

theorem lateInit_stores (h : Host) (ctx : Context) (s : State)
    (k : IndexListKind) :
    ((lateInit h ctx s).1.array k = s.array k ∧
        (lateInit h ctx s).1.count k = s.count k) ∨
      storedFromText h (lateInit h ctx s).1 k := by
  have step : ∀ (kind : IndexListKind) (p : State × List Event),
      ((p.1.array k = s.array k ∧ p.1.count k = s.count k) ∨ storedFromText h p.1 k) →
      ((lateInitKind h ctx kind p).1.array k = s.array k ∧
          (lateInitKind h ctx kind p).1.count k = s.count k) ∨
        storedFromText h (lateInitKind h ctx kind p).1 k := by
    intro kind p h01
    rcases lateInitKind_stores h ctx kind p k with h12 | h12
    · rcases h01 with h01 | h01
      · exact Or.inl ⟨h12.1.trans h01.1, h12.2.trans h01.2⟩
      · exact Or.inr (storedFromText_congr h p.1 _ k h12.1 h12.2 h01)
    · exact Or.inr h12
  rw [lateInit_eq]
  exact step DisabledKind _ (step EnabledKind _
    (step OnlyKind (s, []) (Or.inl ⟨rfl, rfl⟩)))

theorem Call.run_stores (h : Host) (s : State) (c : Call) (k : IndexListKind) :
    ((c.run h s).array k = s.array k ∧ (c.run h s).count k = s.count k) ∨
      storedFromText h (c.run h s) k := by
  cases c with
  | assign ctx newval doit kind => exact indexesAssign_stores h ctx s newval doit kind k
  | setRaw kind newval =>
    left
    cases kind <;> cases k <;> exact ⟨rfl, rfl⟩
  | late ctx => exact lateInit_stores h ctx s k
  | filter ctx mem root relationObjectId inhparent rel =>
    show ((indexFilter h ctx s mem root relationObjectId inhparent rel).1.array k =
        s.array k ∧
      (indexFilter h ctx s mem root relationObjectId inhparent rel).1.count k =
        s.count k) ∨
      storedFromText h (indexFilter h ctx s mem root relationObjectId inhparent rel).1 k
    rw [(indexFilter_state h ctx s mem root relationObjectId inhparent rel).1]
    exact lateInit_stores h ctx s k

/-- In a state reached from the initial one, a kind has no block and count 0,
or its count and block were stored from a text. -/
theorem runCalls_stores (h : Host) (k : IndexListKind) :
    ∀ (calls : List Call) (s : State),
      ((s.array k = none ∧ s.count k = 0) ∨ storedFromText h s k) →
      (((runCalls h s calls).array k = none ∧ (runCalls h s calls).count k = 0) ∨
        storedFromText h (runCalls h s calls) k) := by
  intro calls
  induction calls with
  | nil => intro s hs; exact hs
  | cons c cs ih =>
    intro s hs
    unfold runCalls
    rw [List.foldl_cons]
    apply ih
    rcases Call.run_stores h s c k with h1 | h1
    · rcases hs with h0 | h0
      · exact Or.inl ⟨h1.1.trans h0.1, h1.2.trans h0.2⟩
      · exact Or.inr (storedFromText_congr h s _ k h1.1 h1.2 h0)
    · exact Or.inr h1

/-! ## execPlantuner, step by step -/

theorem emptyTableFix_indexlist (s : State) (relation : Relation) (rel : RelOptInfo) :
    (emptyTableFix s relation rel).indexlist = rel.indexlist := by
  unfold emptyTableFix
  split <;> rfl

/-- Plantuner's own work: for a plain relation the size override and
`indexFilter`, for any other relation nothing. -/
theorem execPlantuner_none (h : Host) (ctx : Context) (s : State)
    (mem : Ptr → IndexOptInfo) (root : Ptr) (relationObjectId : Oid)
    (inhparent : Bool) (rel : RelOptInfo) :
    execPlantuner h ctx none s mem root relationObjectId inhparent rel =
      if (h.heap_open relationObjectId).relkind = RELKIND_RELATION then
        indexFilter h ctx s mem root relationObjectId inhparent
          (emptyTableFix s (h.heap_open relationObjectId) rel)
      else (s, rel, []) := by
  unfold execPlantuner emptyTableFix
  simp only [ite_self]

/-- With a previous hook installed: the own work, then the call of the hook
unless the own work was left by `ERROR`. -/
theorem execPlantuner_some (h : Host) (ctx : Context) (hook : HookType) (s : State)
    (mem : Ptr → IndexOptInfo) (root : Ptr) (relationObjectId : Oid)
    (inhparent : Bool) (rel : RelOptInfo) :
    execPlantuner h ctx (some hook) s mem root relationObjectId inhparent rel =
      if raised (execPlantuner h ctx none s mem root relationObjectId inhparent
          rel).2.2 then
        execPlantuner h ctx none s mem root relationObjectId inhparent rel
      else
        ((execPlantuner h ctx none s mem root relationObjectId inhparent rel).1,
          hook root relationObjectId inhparent
            (execPlantuner h ctx none s mem root relationObjectId inhparent rel).2.1,
          (execPlantuner h ctx none s mem root relationObjectId inhparent rel).2.2 ++
            [Event.hook root relationObjectId inhparent
              (execPlantuner h ctx none s mem root relationObjectId inhparent
                rel).2.1]) := by
  unfold execPlantuner
  simp only [ite_self]

theorem execPlantuner_state (h : Host) (ctx : Context)
    (prevHook : Option HookType) (s : State) (mem : Ptr → IndexOptInfo)
    (root : Ptr) (relationObjectId : Oid) (inhparent : Bool) (rel : RelOptInfo) :
    (execPlantuner h ctx prevHook s mem root relationObjectId inhparent rel).1 =
      (execPlantuner h ctx none s mem root relationObjectId inhparent rel).1 := by
  cases prevHook with
  | none => rfl
  | some hook =>
    rw [execPlantuner_some]
    split <;> rfl

theorem execPlantuner_no_hook (h : Host) (ctx : Context) (s : State)
    (mem : Ptr → IndexOptInfo) (root : Ptr) (relationObjectId : Oid)
    (inhparent : Bool) (rel : RelOptInfo) :
    ∀ e ∈ (execPlantuner h ctx none s mem root relationObjectId inhparent rel).2.2,
      e.isHook = false := by
  rw [execPlantuner_none]
  split
  · rw [(indexFilter_state h ctx s mem root relationObjectId inhparent _).2]
    exact lateInit_no_hook h ctx s
  · intro e he; cases he

/-! ## The blocks released by indexesAssign and lateInit -/

theorem append_no_free (l : List Event) (x : Event)
    (hl : ∀ e ∈ l, e.isFree = false) (hx : x.isFree = false) :
    ∀ e ∈ l ++ [x], e.isFree = false := by
  intro e he
  rcases List.mem_append.mp he with h1 | h1
  · exact hl e h1
  · rw [List.mem_singleton.mp h1]; exact hx

theorem assignStep_no_free (h : Host) (doit : Bool) (acc : AssignLoop)
    (curname : String) (hacc : ∀ e ∈ acc.log, e.isFree = false) :
    ∀ e ∈ (assignStep h doit acc curname).log, e.isFree = false := by
  have h0 := append_no_free acc.log (Event.lookup curname) hacc rfl
  unfold assignStep
  split
  · exact hacc
  · split
    · rename_i msg hl
      intro e he
      simp only [List.mem_append, List.mem_cons, List.mem_singleton,
        List.not_mem_nil, or_false] at he
      rcases he with he | he | he
      · exact hacc e he
      · rw [he]; rfl
      · rw [he]; rfl
    · rename_i indexOid hl
      have h3 := append_no_free _ (Event.relkind indexOid) h0 rfl
      by_cases h1 : indexOid = InvalidOid
      · cases doit
        · simp only [h1, if_true]
          exact append_no_free _ (warnNotExist curname) h0 rfl
        · simp only [h1, if_true, Bool.true_eq_false, if_false]
          exact h0
      · by_cases h2 : h.get_rel_relkind indexOid = RELKIND_INDEX
        · cases doit
          · simp only [h1, h2, if_false, ne_eq, not_true_eq_false, Bool.false_eq_true]
            exact h3
          · simp only [h1, h2, if_false, ne_eq, not_true_eq_false, if_true]
            exact h3
        · cases doit
          · simp only [h1, h2, if_false, ne_eq, not_false_eq_true, if_true]
            exact append_no_free _ (warnNotIndex curname) h3 rfl
          · simp only [h1, h2, if_false, ne_eq, not_false_eq_true, if_true,
              Bool.true_eq_false]
            exact h3

theorem assign_fold_no_free (h : Host) (doit : Bool) :
    ∀ (namelist : List String) (acc : AssignLoop),
      (∀ e ∈ acc.log, e.isFree = false) →
      ∀ e ∈ (namelist.foldl (assignStep h doit) acc).log, e.isFree = false := by
  intro namelist
  induction namelist with
  | nil => intro acc hacc; exact hacc
  | cons x xs ih =>
    intro acc hacc
    rw [List.foldl_cons]
    exact ih _ (assignStep_no_free h doit acc x hacc)

theorem assignLoop_no_free (h : Host) (doit : Bool) (namelist : List String) :
    ∀ e ∈ (assignLoop h doit namelist).log, e.isFree = false :=
  assign_fold_no_free h doit namelist _ (by intro e he; cases he)

/-- A call of `indexesAssign` releases no block but the one of its kind, and
that one only in apply mode, when the kind had a block. -/
theorem indexesAssign_free (h : Host) (ctx : Context) (s : State)
    (newval : String) (doit : Bool) (kind k : IndexListKind)
    (hk : Event.free k ∈ (indexesAssign h ctx s newval doit kind).log) :
    k = kind ∧ doit = true ∧ (s.array kind).isSome = true := by
  have hloop : ∀ namelist, Event.free k ∉ (assignLoop h doit namelist).log := by
    intro namelist hm
    have := assignLoop_no_free h doit namelist _ hm
    cases this
  rw [indexesAssign_log] at hk
  split at hk
  · cases hk
  · split at hk
    · split at hk
      · exact absurd hk (hloop _)
      · split at hk
        · rename_i hd
          rcases List.mem_append.mp hk with h1 | h1
          · exact absurd h1 (hloop _)
          · have := List.mem_singleton.mp h1
            injection this with hkk
            exact ⟨hkk, hd.1, hd.2⟩
        · exact absurd hk (hloop _)
    · cases hk

theorem lateInitKind_free (h : Host) (ctx : Context) (kind k : IndexListKind)
    (p : State × List Event)
    (hk : Event.free k ∈ (lateInitKind h ctx kind p).2) :
    Event.free k ∈ p.2 ∨
      (k = kind ∧ p.1.inited kind = false ∧ (p.1.array kind).isSome = true) := by
  unfold lateInitKind at hk
  split at hk
  · exact Or.inl hk
  · split at hk
    · rename_i hi
      rcases List.mem_append.mp hk with h1 | h1
      · exact Or.inl h1
      · have hf := indexesAssign_free h ctx p.1 _ true kind k h1
        refine Or.inr ⟨hf.1, ?_, hf.2.2⟩
        simpa using hi
    · exact Or.inl hk

/-- The call of `lateInit` releases the block of a kind only when the flag of
that kind was not set and the kind had a block. -/
theorem lateInit_free (h : Host) (ctx : Context) (s : State) (k : IndexListKind)
    (hk : Event.free k ∈ (lateInit h ctx s).2) :
    s.inited k = false ∧ (s.array k).isSome = true := by
  rw [lateInit_eq] at hk
  have o1 := lateInitKind_other h ctx OnlyKind EnabledKind (s, []) (by decide)
  have o2 := lateInitKind_other h ctx OnlyKind DisabledKind (s, []) (by decide)
  have o3 := lateInitKind_other h ctx EnabledKind DisabledKind
    (lateInitKind h ctx OnlyKind (s, [])) (by decide)
  rcases lateInitKind_free h ctx DisabledKind k _ hk with h3 | ⟨hk3, hi3, ha3⟩
  · rcases lateInitKind_free h ctx EnabledKind k _ h3 with h2 | ⟨hk2, hi2, ha2⟩
    · rcases lateInitKind_free h ctx OnlyKind k _ h2 with h1 | ⟨hk1, hi1, ha1⟩
      · cases h1
      · rw [hk1]; exact ⟨hi1, ha1⟩
    · rw [hk2]
      exact ⟨o1.1.symm.trans hi2, by rw [← o1.2.2.1]; exact ha2⟩
  · rw [hk3]
    exact ⟨o2.1.symm.trans (o3.1.symm.trans hi3),
      by rw [← o2.2.2.1, ← o3.2.2.1]; exact ha3⟩

/-- With the flag of the kind set, a show function that is not left by
`ERROR` prints the block and count the kind holds. -/
theorem IndexFilterShow_inited (h : Host) (ctx : Context) (s : State)
    (k : IndexListKind) (hi : s.inited k = true)
    (hret : raised (lateInit h ctx s).2 = false) :
    (IndexFilterShow h ctx s { origin := k, block := s.array k } (s.count k)).1 =
      ShowResult.text (showLoop h (s.array k) (s.count k) 0 "") := by
  have hf : Event.free k ∉ (lateInit h ctx s).2 := by
    intro hm
    have := (lateInit_free h ctx s k hm).1
    rw [hi] at this
    cases this
  simp [IndexFilterShow, hret, hf]

/-- A show function reads a released block only when the flag of the kind
was not set at the call and the kind held a block with a member. -/
theorem IndexFilterShow_freedRead (h : Host) (ctx : Context) (s : State)
    (k : IndexListKind)
    (hf : (IndexFilterShow h ctx s { origin := k, block := s.array k }
      (s.count k)).1 = ShowResult.freedRead) :
    s.inited k = false ∧ 0 < s.count k ∧ (s.array k).isSome = true ∧
      raised (lateInit h ctx s).2 = false := by
  unfold IndexFilterShow at hf
  simp only at hf
  split at hf
  · cases hf
  · rename_i hr
    split at hf
    · rename_i hc
      exact ⟨(lateInit_free h ctx s k hc.2.2).1, hc.1, hc.2.1, by simpa using hr⟩
    · cases hf

/-! ## The warnings of a loop that is left by an error -/

theorem assignStep_raise_log (h : Host) (doit : Bool) (acc : AssignLoop)
    (curname : String) (hr : raised acc.log = false)
    (hok : lookupOk h curname = false) :
    ∃ msg, (assignStep h doit acc curname).log =
      acc.log ++ [Event.lookup curname, Event.error msg] := by
  unfold assignStep
  rw [if_neg (by simp [hr])]
  split
  · rename_i msg hl
    exact ⟨msg, rfl⟩
  · rename_i indexOid hl
    rw [(lookupOid_found h curname indexOid hl).2] at hok
    cases hok

/-- The warnings of the loop are those of the tokens before the first one
whose lookup reports an `ERROR`. -/
theorem assign_fold_warnings_before_error (h : Host) (doit : Bool) :
    ∀ (namelist : List String) (acc : AssignLoop), raised acc.log = false →
      (namelist.foldl (assignStep h doit) acc).log.filter Event.isWarning =
        acc.log.filter Event.isWarning ++
          (if doit = false then
            ((namelist.takeWhile (lookupOk h)).filter
              (fun t => !isIndexName h t)).map (warningFor h)
          else []) := by
  intro namelist
  induction namelist with
  | nil => intro acc _; cases doit <;> simp
  | cons x xs ih =>
    intro acc hr
    cases hx : lookupOk h x with
    | true =>
      rw [List.foldl_cons, ih _ (assignStep_ok h doit acc x hr hx),
        assignStep_warnings h doit acc x hr hx]
      cases doit
      · cases hn : isIndexName h x <;> simp [List.takeWhile_cons, hx, List.filter_cons, hn]
      · simp
    | false =>
      obtain ⟨msg, hlog⟩ := assignStep_raise_log h doit acc x hr hx
      rw [List.foldl_cons, assign_fold_raised h doit xs _
        (assignStep_raise h doit acc x hr hx), hlog]
      cases doit <;>
        simp [List.takeWhile_cons, hx, List.filter_append, List.filter_cons,
          Event.isWarning]

theorem assign_warnings_before_error (h : Host) (ctx : Context) (s : State)
    (newval : String) (doit : Bool) (kind : IndexListKind)
    (namelist : List String)
    (hsplit : h.SplitIdentifierString newval = some namelist)
    (hctx : ctx.valid = true) :
    (indexesAssign h ctx s newval doit kind).log.filter Event.isWarning =
      if doit = false then
        ((namelist.takeWhile (lookupOk h)).filter
          (fun t => !isIndexName h t)).map (warningFor h)
      else [] := by
  have hw := assign_fold_warnings_before_error h doit namelist
    { newOids := if doit then malloc h (namelist.length + 1) else none,
      i := 0, log := [] } raised_nil
  simp only [List.filter_nil, List.nil_append] at hw
  rw [indexesAssign_log, hsplit]
  simp only [hctx, if_true]
  split
  · rw [assignLoop, hw]
  · split
    · rw [List.filter_append, assignLoop, hw]
      simp [Event.isWarning]
    · rw [assignLoop, hw]

/-! ## The block of the loop and of an apply-mode call that returns -/

/-- The loop started on a fresh block of `n` entries keeps the block at that
length and advances the write index by at most one for each token. -/
theorem assign_fold_block (h : Host) (front : List String) (n : Nat) :
    (front.foldl (assignStep h true)
        { newOids := malloc h n, i := 0, log := [] }).i ≤ front.length ∧
      ∃ cells,
        (front.foldl (assignStep h true)
          { newOids := malloc h n, i := 0, log := [] }).newOids = some cells ∧
        cells.length = n := by
  have hb := assign_fold_bounds h true front
    { newOids := malloc h n, i := 0, log := [] }
  refine ⟨by simpa using hb.1, ?_⟩
  have h2 := hb.2
  simp only [malloc, Option.map_some', List.length_replicate] at h2
  cases hc : (front.foldl (assignStep h true)
      { newOids := some (List.replicate n h.garbage), i := 0,
        log := [] }).newOids with
  | none => rw [hc] at h2; cases h2
  | some cells =>
    rw [hc] at h2
    simp only [Option.map_some', Option.some.injEq] at h2
    exact ⟨cells, by simp [malloc, hc], h2⟩

/-- An apply-mode call in a valid context that returns stores the block and
the write index of its loop. -/
theorem indexesAssign_apply_block (h : Host) (ctx : Context) (s : State)
    (newval : String) (kind : IndexListKind) (namelist : List String)
    (hsplit : h.SplitIdentifierString newval = some namelist)
    (hctx : ctx.valid = true)
    (hret : raised (indexesAssign h ctx s newval true kind).log = false) :
    (indexesAssign h ctx s newval true kind).state.array kind =
        (assignLoop h true namelist).newOids ∧
      (indexesAssign h ctx s newval true kind).state.count kind =
        (assignLoop h true namelist).i := by
  have hr : raised (assignLoop h true namelist).log = false := by
    cases hl : raised (assignLoop h true namelist).log with
    | false => rfl
    | true =>
      have := ((indexesAssign_raised h ctx s newval true kind).2).mpr
        ⟨namelist, hsplit, hctx, hl⟩
      rw [hret] at this
      cases this
  rw [indexesAssign_state, hsplit]
  simp only [hctx, hr, if_true, Bool.false_eq_true, if_false]
  exact ⟨(commitOids_frame _ kind _ _).2.1, (commitOids_frame _ kind _ _).2.2.1⟩

/-! ## The claims about indexFilter -/

/-- C3, as stated, fails: a validate-mode call made outside a transaction
clears the initialized flag of a list that was resolved before. -/
theorem validate_resets_flag :
    (applyValue demoHost ctxValid State.init DisabledKind "b").inited DisabledKind = true ∧
      (indexesAssign demoHost ctxIdle
          (applyValue demoHost ctxValid State.init DisabledKind "b")
          "b" false DisabledKind).state.inited DisabledKind = false ∧
      (checkDisabledIndexes demoHost ctxIdle
          (applyValue demoHost ctxValid State.init DisabledKind "b") "b").2.1 ≠
        applyValue demoHost ctxValid State.init DisabledKind "b" := by
  decide

/-- C3, amended: in validate mode `indexesAssign` leaves the member arrays,
the counts and the raw texts of all three kinds and the initialized flags of
the other two kinds unchanged, inside and outside a valid resolution context;
a text that does not split changes nothing at all; and outside a valid
context a text that splits clears the flag of the kind itself. -/
theorem indexesAssign_validate_frame (h : Host) (ctx : Context) (s : State)
    (newval : String) (kind : IndexListKind) :
    (∀ k, (indexesAssign h ctx s newval false kind).state.array k = s.array k ∧
        (indexesAssign h ctx s newval false kind).state.count k = s.count k ∧
        (indexesAssign h ctx s newval false kind).state.rawText k = s.rawText k ∧
        (k = kind ∨
          (indexesAssign h ctx s newval false kind).state.inited k = s.inited k)) ∧
      (h.SplitIdentifierString newval = none →
        (indexesAssign h ctx s newval false kind).state = s) ∧
      (ctx.valid = false → (h.SplitIdentifierString newval).isSome = true →
        (indexesAssign h ctx s newval false kind).state.inited kind = false) := by
  rw [indexesAssign_state]
  refine ⟨fun k => ?_, ?_, ?_⟩
  · split
    · exact ⟨rfl, rfl, rfl, Or.inr rfl⟩
    · split
      · simp only [Bool.false_eq_true, if_false, ite_self]
        have := (setInited_frame s kind true).1 k
        exact ⟨this.1, this.2.1, this.2.2.1, this.2.2.2⟩
      · have := (setInited_frame s kind false).1 k
        exact ⟨this.1, this.2.1, this.2.2.1, this.2.2.2⟩
  · intro hn
    rw [hn]
  · intro hctx hs
    cases hsp : h.SplitIdentifierString newval with
    | none => rw [hsp] at hs; cases hs
    | some namelist =>
      simp only [hctx, Bool.false_eq_true, if_false]
      exact (setInited_frame s kind false).2.1

/-- A check hook run outside a transaction on a resolved disable list. -/
theorem indexesAssign_validate_frame_witness :
    ctxIdle.valid = false ∧
      (demoHost.SplitIdentifierString "b").isSome = true ∧
      (indexesAssign demoHost ctxIdle
          (applyValue demoHost ctxValid State.init DisabledKind "b")
          "b" false DisabledKind).state.inited DisabledKind = false ∧
      (indexesAssign demoHost ctxIdle
          (applyValue demoHost ctxValid State.init DisabledKind "b")
          "b" false DisabledKind).state.array DisabledKind =
        (applyValue demoHost ctxValid State.init DisabledKind "b").array DisabledKind :=
  ⟨by decide, by decide,
    (indexesAssign_validate_frame demoHost ctxIdle
      (applyValue demoHost ctxValid State.init DisabledKind "b")
      "b" DisabledKind).2.2 (by decide) (by decide),
    ((indexesAssign_validate_frame demoHost ctxIdle
      (applyValue demoHost ctxValid State.init DisabledKind "b")
      "b" DisabledKind).1 DisabledKind).1⟩

/-- C4: the invariant is broken by the code. A disable list set outside a
transaction and then validated inside one is flagged initialized while its
members are still empty, although its raw text resolves to index b; the next
planning call therefore removes nothing. -/
theorem validate_sets_flag_without_members :
    (runSteps demoHost State.init
        [Step.apply ctxIdle DisabledKind "b",
          Step.validate ctxValid DisabledKind "b"]).inited DisabledKind = true ∧
      (runSteps demoHost State.init
        [Step.apply ctxIdle DisabledKind "b",
          Step.validate ctxValid DisabledKind "b"]).rawText DisabledKind = "b" ∧
      (runSteps demoHost State.init
        [Step.apply ctxIdle DisabledKind "b",
          Step.validate ctxValid DisabledKind "b"]).members DisabledKind = [] ∧
      resolution demoHost "b" = some [2] ∧
      (indexFilter demoHost ctxValid
        (runSteps demoHost State.init
          [Step.apply ctxIdle DisabledKind "b",
            Step.validate ctxValid DisabledKind "b"])
        demoMem 0 9 false demoRel).2.1.indexlist = [101, 102, 103] := by
  decide

/-- C6: in apply mode with no resolution context (invalid backend id, not
under postmaster, or not in a transaction), a text that splits is accepted
(the text is returned, no `ERROR` is reported), the flag of the kind is
cleared, nothing is looked up and no warning is emitted, and the arrays and
counts of all three kinds and the flags of the other two kinds are
unchanged. -/
theorem indexesAssign_apply_no_context (h : Host) (ctx : Context) (s : State)
    (newval : String) (kind : IndexListKind) (namelist : List String)
    (hsplit : h.SplitIdentifierString newval = some namelist)
    (hctx : ctx.MyBackendId = InvalidBackendId ∨ ctx.IsUnderPostmaster = false ∨
      ctx.IsTransactionState = false) :
    (indexesAssign h ctx s newval true kind).ret = some newval ∧
      (indexesAssign h ctx s newval true kind).state.inited kind = false ∧
      (indexesAssign h ctx s newval true kind).log = [] ∧
      (∀ k, (indexesAssign h ctx s newval true kind).state.array k = s.array k ∧
        (indexesAssign h ctx s newval true kind).state.count k = s.count k ∧
        (k = kind ∨
          (indexesAssign h ctx s newval true kind).state.inited k = s.inited k)) ∧
      (indexesAssign h ctx s newval true kind).raised = false := by
  have hv := (Context.valid_false_iff ctx).mpr hctx
  rw [indexesAssign_ret, indexesAssign_log, indexesAssign_state,
    indexesAssign_raised_field, hsplit]
  simp only [hv, Bool.false_eq_true, if_false, false_and, Bool.false_and]
  refine ⟨trivial, (setInited_frame s kind false).2.1, trivial, fun k => ?_, trivial⟩
  have := (setInited_frame s kind false).1 k
  exact ⟨this.1, this.2.1, this.2.2.2⟩

/-- The only-list [C] applied outside a transaction over a resolved only-list
[B]: the old members stay in place, flagged as not initialized. -/
theorem indexesAssign_apply_no_context_witness :
    demoHost.SplitIdentifierString "c" = some ["c"] ∧
      (ctxIdle.MyBackendId = InvalidBackendId ∨ ctxIdle.IsUnderPostmaster = false ∨
        ctxIdle.IsTransactionState = false) ∧
      (indexesAssign demoHost ctxIdle
        (applyValue demoHost ctxValid State.init OnlyKind "b") "c" true OnlyKind).ret =
          some "c" ∧
      (indexesAssign demoHost ctxIdle
        (applyValue demoHost ctxValid State.init OnlyKind "b") "c" true
          OnlyKind).state.inited OnlyKind = false ∧
      (indexesAssign demoHost ctxIdle
        (applyValue demoHost ctxValid State.init OnlyKind "b") "c" true
          OnlyKind).state.members OnlyKind = [2] :=
  ⟨by decide, by decide,
    (indexesAssign_apply_no_context demoHost ctxIdle
      (applyValue demoHost ctxValid State.init OnlyKind "b") "c" OnlyKind ["c"]
      (by decide) (by decide)).1,
    (indexesAssign_apply_no_context demoHost ctxIdle
      (applyValue demoHost ctxValid State.init OnlyKind "b") "c" OnlyKind ["c"]
      (by decide) (by decide)).2.1,
    by decide⟩

/-- C8, as stated, fails: for a materialized view (relkind m) the hook runs
neither `lateInit` nor `indexFilter`: the state and the candidate list come
back as they were, where `indexFilter` would have resolved the disable list
and removed B. -/
theorem execPlantuner_skips_other_relkinds :
    (demoHost.heap_open 8).relkind = 'm' ∧
      execPlantuner demoHost ctxValid none
          (applyValue demoHost ctxIdle State.init DisabledKind "b")
          demoMem 0 8 false demoRel =
        (applyValue demoHost ctxIdle State.init DisabledKind "b", demoRel, []) ∧
      (indexFilter demoHost ctxValid
          (applyValue demoHost ctxIdle State.init DisabledKind "b")
          demoMem 0 8 false demoRel).2.1.indexlist = [101, 103] ∧
      (indexFilter demoHost ctxValid
          (applyValue demoHost ctxIdle State.init DisabledKind "b")
          demoMem 0 8 false demoRel).1 ≠
        applyValue demoHost ctxIdle State.init DisabledKind "b" := by
  decide

/-- C8, amended: every call of `execPlantuner` for a relation of kind
`RELKIND_RELATION` runs `lateInit` and then applies the index filter to the
candidate index list of the relation, whatever hook was installed before;
the list is the filtered one unless `lateInit` is left by `ERROR`. -/
theorem execPlantuner_plain_relation (h : Host) (ctx : Context)
    (prevHook : Option HookType) (s : State) (mem : Ptr → IndexOptInfo)
    (root : Ptr) (relationObjectId : Oid) (inhparent : Bool) (rel : RelOptInfo)
    (hkind : (h.heap_open relationObjectId).relkind = RELKIND_RELATION) :
    (execPlantuner h ctx prevHook s mem root relationObjectId inhparent rel).1 =
        (lateInit h ctx s).1 ∧
      (execPlantuner h ctx none s mem root relationObjectId inhparent rel).2.1.indexlist =
        (if raised (lateInit h ctx s).2 then rel.indexlist
          else filterList (lateInit h ctx s).1 mem rel.indexlist) ∧
      (execPlantuner h ctx none s mem root relationObjectId inhparent rel).2.1.indexlist =
        (indexFilter h ctx s mem root relationObjectId inhparent rel).2.1.indexlist ∧
      (execPlantuner h ctx none s mem root relationObjectId inhparent rel).1 =
        (indexFilter h ctx s mem root relationObjectId inhparent rel).1 ∧
      (execPlantuner h ctx none s mem root relationObjectId inhparent rel).2.2 =
        (lateInit h ctx s).2 := by
  have hst := indexFilter_state h ctx s mem root relationObjectId inhparent
  have hfix := emptyTableFix_indexlist s (h.heap_open relationObjectId) rel
  rw [execPlantuner_state, execPlantuner_none, if_pos hkind]
  refine ⟨(hst _).1, ?_, ?_, (hst _).1.trans (hst rel).1.symm, (hst _).2⟩
  · cases hr : raised (lateInit h ctx s).2
    · rw [indexFilter_rel h ctx s mem root relationObjectId inhparent _ hr, hfix]
      simp
    · rw [indexFilter_rel_raised h ctx s mem root relationObjectId inhparent _ hr, hfix]
      simp
  · cases hr : raised (lateInit h ctx s).2
    · rw [indexFilter_rel h ctx s mem root relationObjectId inhparent _ hr,
        indexFilter_rel h ctx s mem root relationObjectId inhparent rel hr, hfix]
    · rw [indexFilter_rel_raised h ctx s mem root relationObjectId inhparent _ hr,
        indexFilter_rel_raised h ctx s mem root relationObjectId inhparent rel hr, hfix]

/-- The hook called for table t (relkind r, no blocks) with the disable list
[B] still to be resolved. -/
theorem execPlantuner_plain_relation_witness :
    (demoHost.heap_open 9).relkind = RELKIND_RELATION ∧
      (execPlantuner demoHost ctxValid none
        (applyValue demoHost ctxIdle State.init DisabledKind "b")
        demoMem 0 9 false demoRel).1.inited DisabledKind = true ∧
      (execPlantuner demoHost ctxValid none
        (applyValue demoHost ctxIdle State.init DisabledKind "b")
        demoMem 0 9 false demoRel).2.1.indexlist = [101, 103] :=
  ⟨by decide,
    (congrArg (fun st => st.inited DisabledKind)
      (execPlantuner_plain_relation demoHost ctxValid none
        (applyValue demoHost ctxIdle State.init DisabledKind "b")
        demoMem 0 9 false demoRel (by decide)).1).trans (by decide),
    (execPlantuner_plain_relation demoHost ctxValid none
      (applyValue demoHost ctxIdle State.init DisabledKind "b")
      demoMem 0 9 false demoRel (by decide)).2.1.trans (by decide)⟩

/-- C9, as stated, fails: with a previous hook installed and the disable
list a.b.c.d set while no transaction was open, the call for table t is left
by `ERROR` during lazy initialization and the previous hook is not called at
all. -/
theorem prevHook_not_called_after_error :
    (demoHost.heap_open 9).relkind = RELKIND_RELATION ∧
      raised (execPlantuner demoHost ctxValid (some demoHook)
        (applyValue demoHost ctxIdle State.init DisabledKind "a.b.c.d")
        demoMem 0 9 false demoRel).2.2 = true ∧
      (execPlantuner demoHost ctxValid (some demoHook)
        (applyValue demoHost ctxIdle State.init DisabledKind "a.b.c.d")
        demoMem 0 9 false demoRel).2.2.filter Event.isHook = [] ∧
      (execPlantuner demoHost ctxValid (some demoHook)
        (applyValue demoHost ctxIdle State.init DisabledKind "a.b.c.d")
        demoMem 0 9 false demoRel).2.1.indexlist = [101, 102, 103] := by
  decide

/-- C9, amended: when plantuner's own work is not left by `ERROR` and a
previous hook is installed, `execPlantuner` calls it exactly once, as its
last action, with the planner info, relation id and inheritance flag it
received and the relation info as plantuner left it, and returns what the
hook makes of it: for a relation of kind `RELKIND_RELATION` the relation
info after the size override with the candidate list filtered by the
members that `lateInit` leaves, for any other kind the relation info as
received. When the own work is left by `ERROR` the hook is not called. -/
theorem execPlantuner_calls_prevHook (h : Host) (ctx : Context)
    (hook : HookType) (s : State) (mem : Ptr → IndexOptInfo)
    (root : Ptr) (relationObjectId : Oid) (inhparent : Bool) (rel : RelOptInfo) :
    ((h.heap_open relationObjectId).relkind = RELKIND_RELATION →
        raised (lateInit h ctx s).2 = false →
        execPlantuner h ctx (some hook) s mem root relationObjectId inhparent rel =
          ((lateInit h ctx s).1,
            hook root relationObjectId inhparent
              { emptyTableFix s (h.heap_open relationObjectId) rel with
                indexlist := filterList (lateInit h ctx s).1 mem rel.indexlist },
            (lateInit h ctx s).2 ++
              [Event.hook root relationObjectId inhparent
                { emptyTableFix s (h.heap_open relationObjectId) rel with
                  indexlist := filterList (lateInit h ctx s).1 mem rel.indexlist }])) ∧
      ((h.heap_open relationObjectId).relkind ≠ RELKIND_RELATION →
        execPlantuner h ctx (some hook) s mem root relationObjectId inhparent rel =
          (s, hook root relationObjectId inhparent rel,
            [Event.hook root relationObjectId inhparent rel])) ∧
      (raised (execPlantuner h ctx none s mem root relationObjectId inhparent
          rel).2.2 = false →
        (execPlantuner h ctx (some hook) s mem root relationObjectId inhparent rel).1 =
            (execPlantuner h ctx none s mem root relationObjectId inhparent rel).1 ∧
          (execPlantuner h ctx (some hook) s mem root relationObjectId inhparent
              rel).2.1 =
            hook root relationObjectId inhparent
              (execPlantuner h ctx none s mem root relationObjectId inhparent rel).2.1 ∧
          (execPlantuner h ctx (some hook) s mem root relationObjectId inhparent
              rel).2.2 =
            (execPlantuner h ctx none s mem root relationObjectId inhparent rel).2.2 ++
              [Event.hook root relationObjectId inhparent
                (execPlantuner h ctx none s mem root relationObjectId inhparent
                  rel).2.1] ∧
          ((execPlantuner h ctx (some hook) s mem root relationObjectId inhparent
            rel).2.2.filter Event.isHook).length = 1) ∧
      ((execPlantuner h ctx none s mem root relationObjectId inhparent rel).2.2.filter
        Event.isHook) = [] ∧
      (raised (execPlantuner h ctx none s mem root relationObjectId inhparent
          rel).2.2 = true →
        execPlantuner h ctx (some hook) s mem root relationObjectId inhparent rel =
            execPlantuner h ctx none s mem root relationObjectId inhparent rel ∧
          (execPlantuner h ctx (some hook) s mem root relationObjectId inhparent
            rel).2.2.filter Event.isHook = []) := by
  have hnil : (execPlantuner h ctx none s mem root relationObjectId inhparent
      rel).2.2.filter Event.isHook = [] := by
    rw [List.filter_eq_nil_iff]
    intro e he
    rw [execPlantuner_no_hook h ctx s mem root relationObjectId inhparent rel e he]
    exact Bool.false_ne_true
  have hown : ∀ hr : raised (execPlantuner h ctx none s mem root relationObjectId
      inhparent rel).2.2 = false,
      execPlantuner h ctx (some hook) s mem root relationObjectId inhparent rel =
        ((execPlantuner h ctx none s mem root relationObjectId inhparent rel).1,
          hook root relationObjectId inhparent
            (execPlantuner h ctx none s mem root relationObjectId inhparent rel).2.1,
          (execPlantuner h ctx none s mem root relationObjectId inhparent rel).2.2 ++
            [Event.hook root relationObjectId inhparent
              (execPlantuner h ctx none s mem root relationObjectId inhparent
                rel).2.1]) := by
    intro hr
    rw [execPlantuner_some, if_neg (by simp [hr])]
  refine ⟨?_, ?_, ?_, hnil, ?_⟩
  · intro hkind hret
    have hst := indexFilter_state h ctx s mem root relationObjectId inhparent
      (emptyTableFix s (h.heap_open relationObjectId) rel)
    have hrel := indexFilter_rel h ctx s mem root relationObjectId inhparent
      (emptyTableFix s (h.heap_open relationObjectId) rel) hret
    have hnone := execPlantuner_none h ctx s mem root relationObjectId inhparent rel
    rw [if_pos hkind] at hnone
    have hr : raised (execPlantuner h ctx none s mem root relationObjectId inhparent
        rel).2.2 = false := by
      rw [hnone, hst.2]; exact hret
    rw [hown hr, hnone, hst.1, hst.2, hrel, emptyTableFix_indexlist]
  · intro hkind
    have hnone := execPlantuner_none h ctx s mem root relationObjectId inhparent rel
    rw [if_neg hkind] at hnone
    have hr : raised (execPlantuner h ctx none s mem root relationObjectId inhparent
        rel).2.2 = false := by
      rw [hnone]; rfl
    rw [hown hr, hnone]
    rfl
  · intro hr
    rw [hown hr]
    refine ⟨rfl, rfl, rfl, ?_⟩
    simp only [List.filter_append, hnil, List.nil_append]
    simp [Event.isHook]
  · intro hr
    have : execPlantuner h ctx (some hook) s mem root relationObjectId inhparent rel =
        execPlantuner h ctx none s mem root relationObjectId inhparent rel := by
      rw [execPlantuner_some, if_pos hr]
    exact ⟨this, by rw [this]; exact hnil⟩

/-- The hook that drops the first candidate, called after disable = [B] was
resolved for table t: it receives [A, C] with the size override and returns
[C]; for the materialized view it receives [A, B, C] and returns [B, C]. -/
theorem execPlantuner_calls_prevHook_witness :
    (demoHost.heap_open 9).relkind = RELKIND_RELATION ∧
      (demoHost.heap_open 8).relkind ≠ RELKIND_RELATION ∧
      raised (lateInit demoHost ctxValid
        (applyValue demoHost ctxIdle State.init DisabledKind "b")).2 = false ∧
      (execPlantuner demoHost ctxValid (some demoHook)
        (applyValue demoHost ctxIdle State.init DisabledKind "b")
        demoMem 0 9 false demoRel).2.1.indexlist = [103] ∧
      (execPlantuner demoHost ctxValid (some demoHook)
        (applyValue demoHost ctxIdle State.init DisabledKind "b")
        demoMem 0 8 false demoRel).2.1.indexlist = [102, 103] ∧
      (execPlantuner demoHost ctxValid (some demoHook)
        (applyValue demoHost ctxIdle State.init DisabledKind "b")
        demoMem 0 8 false demoRel).2.2 = [Event.hook 0 8 false demoRel] :=
  ⟨by decide, by decide, by decide,
    (congrArg (fun r => r.2.1.indexlist)
      ((execPlantuner_calls_prevHook demoHost ctxValid demoHook
        (applyValue demoHost ctxIdle State.init DisabledKind "b")
        demoMem 0 9 false demoRel).1 (by decide) (by decide))).trans (by decide),
    (congrArg (fun r => r.2.1.indexlist)
      ((execPlantuner_calls_prevHook demoHost ctxValid demoHook
        (applyValue demoHost ctxIdle State.init DisabledKind "b")
        demoMem 0 8 false demoRel).2.1 (by decide))).trans (by decide),
    congrArg (fun r => r.2.2)
      ((execPlantuner_calls_prevHook demoHost ctxValid demoHook
        (applyValue demoHost ctxIdle State.init DisabledKind "b")
        demoMem 0 8 false demoRel).2.1 (by decide))⟩

/-- C10: the code breaks the claim. With the disable list [a, b] resolved
and index a dropped afterwards, the show function returns a text that starts
with the separator, where the same array without the dead member gives
public.b. -/
theorem IndexFilterShow_leading_separator :
    (applyValue demoHost ctxValid State.init DisabledKind "a, b").members DisabledKind =
        [1, 2] ∧
      droppedHost.get_rel_name 1 = none ∧
      (disabledIndexFilterShow droppedHost ctxValid
        (applyValue demoHost ctxValid State.init DisabledKind "a, b")).1 =
          ShowResult.text ", public.b" ∧
      (IndexFilterShow droppedHost ctxValid
        (applyValue demoHost ctxValid State.init DisabledKind "a, b")
        { origin := DisabledKind, block := some [1, 2] } 2).1 =
          ShowResult.text ", public.b" ∧
      (IndexFilterShow droppedHost ctxValid
        (applyValue demoHost ctxValid State.init DisabledKind "a, b")
        { origin := DisabledKind, block := some [2] } 1).1 =
          ShowResult.text "public.b" ∧
      (IndexFilterShow demoHost ctxValid
        (applyValue demoHost ctxValid State.init DisabledKind "a, b")
        { origin := DisabledKind, block := some [1, 2] } 2).1 =
          ShowResult.text "public.a, public.b" := by
  decide

/-! ## The claims about rejection and warnings -/

/-- C12, as stated, fails: the text a.b.c.d, no_such_index splits into two
tokens, neither of which resolves to an index, and the validate-mode call
made inside a transaction emits no warning at all, because the lookup of the
first token leaves the loop by `ERROR`. -/
theorem no_warning_after_error :
    demoHost.SplitIdentifierString "a.b.c.d, no_such_index" =
        some ["a.b.c.d", "no_such_index"] ∧
      ctxValid.valid = true ∧
      isIndexName demoHost "a.b.c.d" = false ∧
      isIndexName demoHost "no_such_index" = false ∧
      (indexesAssign demoHost ctxValid State.init "a.b.c.d, no_such_index" false
        DisabledKind).log.filter Event.isWarning = [] ∧
      (indexesAssign demoHost ctxValid State.init "a.b.c.d, no_such_index" false
        DisabledKind).log =
          [Event.lookup "a.b.c.d",
            Event.error "improper relation name (too many dotted names)"] := by
  decide

/-- C12, amended: inside a valid resolution context, on a text that splits,
validate mode emits one warning for each token that does not exist or is not
an index among the tokens before the first one whose lookup reports an
`ERROR`, in token order, and none for a token that resolves to an index; so
when every lookup completes it emits one such warning for each token of the
text that does not resolve; apply mode emits no warning at all. -/
theorem indexesAssign_warnings (h : Host) (ctx : Context) (s : State)
    (newval : String) (kind : IndexListKind) (namelist : List String)
    (hsplit : h.SplitIdentifierString newval = some namelist)
    (hctx : ctx.valid = true) :
    (indexesAssign h ctx s newval false kind).log.filter Event.isWarning =
        ((namelist.takeWhile (lookupOk h)).filter
          (fun t => !isIndexName h t)).map (warningFor h) ∧
      ((∀ t ∈ namelist, lookupOk h t = true) →
        (indexesAssign h ctx s newval false kind).log.filter Event.isWarning =
          (namelist.filter (fun t => !isIndexName h t)).map (warningFor h)) ∧
      (indexesAssign h ctx s newval true kind).log.filter Event.isWarning = [] := by
  refine ⟨?_, ?_, ?_⟩
  · rw [assign_warnings_before_error h ctx s newval false kind namelist hsplit hctx]
    simp
  · intro hok
    rw [assign_warnings_complete h ctx s newval false kind namelist hsplit hctx hok]
    simp
  · rw [assign_warnings_before_error h ctx s newval true kind namelist hsplit hctx]
    simp

/-- Scenario 4 of the specification: disable = no_such_index, validated and
then applied, gives one warning and a disable list without members. -/
theorem indexesAssign_warnings_witness :
    demoHost.SplitIdentifierString "no_such_index" = some ["no_such_index"] ∧
      ctxValid.valid = true ∧
      (∀ t ∈ ["no_such_index"], lookupOk demoHost t = true) ∧
      ((indexesAssign demoHost ctxValid State.init "no_such_index" false
          DisabledKind).log ++
        (indexesAssign demoHost ctxValid
          (indexesAssign demoHost ctxValid State.init "no_such_index" false
            DisabledKind).state "no_such_index" true
          DisabledKind).log).filter Event.isWarning =
        [warnNotExist "no_such_index"] ∧
      (applyValue demoHost ctxValid
        (validateValue demoHost ctxValid State.init DisabledKind "no_such_index")
        DisabledKind "no_such_index").members DisabledKind = [] :=
  ⟨by decide, by decide, by decide,
    by
      rw [List.filter_append,
        (indexesAssign_warnings demoHost ctxValid State.init "no_such_index"
          DisabledKind ["no_such_index"] (by decide) (by decide)).2.1 (by decide),
        (indexesAssign_warnings demoHost ctxValid _ "no_such_index"
          DisabledKind ["no_such_index"] (by decide) (by decide)).2.2]
      decide,
    by decide⟩

/-! ## Further claims about indexFilter -/

/-- C13: for every state and every candidate list, duplicates of an index id
included, the list left by `indexFilter` is a subsequence of the input list
(entries of the input, in their relative order, none added), and the other
fields of the relation info are untouched, whatever the enabled list holds. -/
theorem indexFilter_sublist (h : Host) (ctx : Context) (s : State)
    (mem : Ptr → IndexOptInfo) (root : Ptr) (relationObjectId : Oid)
    (inhparent : Bool) (rel : RelOptInfo) :
    (indexFilter h ctx s mem root relationObjectId inhparent rel).2.1.indexlist.Sublist
        rel.indexlist ∧
      (indexFilter h ctx s mem root relationObjectId inhparent rel).2.1.pages =
        rel.pages ∧
      (indexFilter h ctx s mem root relationObjectId inhparent rel).2.1.tuples =
        rel.tuples := by
  cases hr : raised (lateInit h ctx s).2 with
  | true =>
    rw [indexFilter_rel_raised h ctx s mem root relationObjectId inhparent rel hr]
    exact ⟨List.Sublist.refl _, rfl, rfl⟩
  | false =>
    rw [indexFilter_rel h ctx s mem root relationObjectId inhparent rel hr]
    exact ⟨filterList_sublist _ mem rel.indexlist, rfl, rfl⟩

/-- C14: when after lazy initialization the disabled list and the only-list
have no members, `indexFilter` returns the candidate list unchanged, whatever
the enabled list holds. -/
theorem indexFilter_nothing_disabled (h : Host) (ctx : Context) (s : State)
    (mem : Ptr → IndexOptInfo) (root : Ptr) (relationObjectId : Oid)
    (inhparent : Bool) (rel : RelOptInfo)
    (honly : (lateInit h ctx s).1.nOnlyIndexes = 0)
    (hdis : (lateInit h ctx s).1.nDisabledIndexes = 0) :
    (indexFilter h ctx s mem root relationObjectId inhparent rel).2.1 = rel := by
  cases hr : raised (lateInit h ctx s).2 with
  | true => exact indexFilter_rel_raised h ctx s mem root relationObjectId inhparent rel hr
  | false =>
    rw [indexFilter_rel h ctx s mem root relationObjectId inhparent rel hr]
    simp only [filterList, honly, hdis, gt_iff_lt, Nat.lt_irrefl, if_false,
      disabledLoop]

/-- Enable = [B] with nothing disabled: [A, B, C] stays [A, B, C]. -/
theorem indexFilter_nothing_disabled_witness :
    (lateInit demoHost ctxValid
        (applyValue demoHost ctxValid State.init EnabledKind "b")).1.nOnlyIndexes = 0 ∧
      (lateInit demoHost ctxValid
        (applyValue demoHost ctxValid State.init EnabledKind "b")).1.nDisabledIndexes = 0 ∧
      (applyValue demoHost ctxValid State.init EnabledKind "b").members EnabledKind = [2] ∧
      (indexFilter demoHost ctxValid
        (applyValue demoHost ctxValid State.init EnabledKind "b")
        demoMem 0 9 false demoRel).2.1 = demoRel :=
  ⟨by decide, by decide, by decide,
    indexFilter_nothing_disabled demoHost ctxValid
      (applyValue demoHost ctxValid State.init EnabledKind "b")
      demoMem 0 9 false demoRel (by decide) (by decide)⟩

/-! ## Idempotence -/

/-- C15: inside a valid resolution context and over an unchanged catalog,
calling `indexesAssign` in apply mode twice with the same text gives the same
member ids, count and initialized flag for every kind as calling it once,
hence the same `indexFilter` result for every candidate list. -/
theorem indexesAssign_apply_twice (h : Host) (ctx : Context) (s : State)
    (newval : String) (kind : IndexListKind) (hctx : ctx.valid = true) :
    (∀ k,
        (indexesAssign h ctx (indexesAssign h ctx s newval true kind).state newval
            true kind).state.members k =
          (indexesAssign h ctx s newval true kind).state.members k ∧
        (indexesAssign h ctx (indexesAssign h ctx s newval true kind).state newval
            true kind).state.count k =
          (indexesAssign h ctx s newval true kind).state.count k ∧
        (indexesAssign h ctx (indexesAssign h ctx s newval true kind).state newval
            true kind).state.inited k =
          (indexesAssign h ctx s newval true kind).state.inited k) ∧
      (∀ (mem : Ptr → IndexOptInfo) (root : Ptr) (relationObjectId : Oid)
          (inhparent : Bool) (rel : RelOptInfo),
        (indexFilter h ctx
            (indexesAssign h ctx (indexesAssign h ctx s newval true kind).state
              newval true kind).state
            mem root relationObjectId inhparent rel).2.1 =
          (indexFilter h ctx (indexesAssign h ctx s newval true kind).state
            mem root relationObjectId inhparent rel).2.1) := by
  have hidem := indexesAssign_idem h ctx s newval true kind
  refine ⟨fun k => ?_, fun mem root relationObjectId inhparent rel => ?_⟩
  · rw [hidem]; exact ⟨rfl, rfl, rfl⟩
  · rw [hidem]

/-- The disable list [B] applied twice inside a transaction. -/
theorem indexesAssign_apply_twice_witness :
    ctxValid.valid = true ∧
      (indexesAssign demoHost ctxValid
        (indexesAssign demoHost ctxValid State.init "b" true DisabledKind).state "b"
          true DisabledKind).state.members DisabledKind = [2] ∧
      (indexFilter demoHost ctxValid
        (indexesAssign demoHost ctxValid
          (indexesAssign demoHost ctxValid State.init "b" true DisabledKind).state "b"
            true DisabledKind).state
        demoMem 0 9 false demoRel).2.1.indexlist = [101, 103] :=
  ⟨by decide,
    ((indexesAssign_apply_twice demoHost ctxValid State.init "b" DisabledKind
      (by decide)).1 DisabledKind).1.trans (by decide),
    (congrArg RelOptInfo.indexlist
      ((indexesAssign_apply_twice demoHost ctxValid State.init "b" DisabledKind
        (by decide)).2 demoMem 0 9 false demoRel)).trans (by decide)⟩

/-- C16, as stated, fails in its second half: with the only-list set to
a.b.c.d and the disable list to b while no transaction was open, all raw
texts split, the first `lateInit` inside a transaction is left by `ERROR`
at the only-list with the disable list unresolved, and the second one
resolves the disable list: it looks names up and gives another state. -/
theorem lateInit_twice_differs :
    ctxValid.valid = true ∧
      (∀ k, (demoHost.SplitIdentifierString
        ((applyValue demoHost ctxIdle
          (applyValue demoHost ctxIdle State.init OnlyKind "a.b.c.d")
          DisabledKind "b").rawText k)).isSome = true) ∧
      raised (lateInit demoHost ctxValid
        (applyValue demoHost ctxIdle
          (applyValue demoHost ctxIdle State.init OnlyKind "a.b.c.d")
          DisabledKind "b")).2 = true ∧
      (lateInit demoHost ctxValid
        (applyValue demoHost ctxIdle
          (applyValue demoHost ctxIdle State.init OnlyKind "a.b.c.d")
          DisabledKind "b")).1.members DisabledKind = [] ∧
      (lateInit demoHost ctxValid
        (lateInit demoHost ctxValid
          (applyValue demoHost ctxIdle
            (applyValue demoHost ctxIdle State.init OnlyKind "a.b.c.d")
            DisabledKind "b")).1).1.members DisabledKind = [2] ∧
      (lateInit demoHost ctxValid
        (lateInit demoHost ctxValid
          (applyValue demoHost ctxIdle
            (applyValue demoHost ctxIdle State.init OnlyKind "a.b.c.d")
            DisabledKind "b")).1).2 =
        [Event.lookup "b", Event.relkind 2] := by
  refine ⟨by decide, ?_, by decide, by decide, by decide, by decide⟩
  intro k
  cases k <;> decide

/-- C16, amended: with the initialized flags of all three kinds set,
`lateInit` changes nothing in the state and looks nothing up; consequently,
in a valid resolution context with raw texts that split and whose lookups
complete for every kind whose flag is not set, a second `lateInit` leaves the
state the first one produced and looks nothing up. -/
theorem lateInit_idempotent (h : Host) (ctx : Context) (s : State) :
    (s.plantuner_only_inited = true → s.plantuner_enable_inited = true →
        s.plantuner_disable_inited = true →
        (lateInit h ctx s).1 = s ∧ (lateInit h ctx s).2 = []) ∧
      (ctx.valid = true →
        (∀ k, (h.SplitIdentifierString (s.rawText k)).isSome = true) →
        lateInitOk h s = true →
        raised (lateInit h ctx s).2 = false ∧
          (lateInit h ctx (lateInit h ctx s).1).1 = (lateInit h ctx s).1 ∧
          (lateInit h ctx (lateInit h ctx s).1).2 = []) := by
  refine ⟨?_, ?_⟩
  · intro h1 h2 h3
    rw [lateInit_all_inited h ctx s h1 h2 h3]
    exact ⟨rfl, rfl⟩
  · intro hctx hsplit hok
    have ho := lateInit_sets_flag h ctx s OnlyKind hctx (hsplit OnlyKind) hok
    have he := lateInit_sets_flag h ctx s EnabledKind hctx (hsplit EnabledKind) hok
    have hd := lateInit_sets_flag h ctx s DisabledKind hctx (hsplit DisabledKind) hok
    rw [lateInit_all_inited h ctx _ ho he hd]
    exact ⟨lateInit_returns h ctx s hok, rfl, rfl⟩

/-- The first planning call after start-up resolves the three lists; the
second `lateInit` finds the flags set. -/
theorem lateInit_idempotent_witness :
    ctxValid.valid = true ∧
      (∀ k, (demoHost.SplitIdentifierString
        ((applyValue demoHost ctxIdle State.init DisabledKind "b").rawText k)).isSome =
          true) ∧
      lateInitOk demoHost (applyValue demoHost ctxIdle State.init DisabledKind "b") =
        true ∧
      (lateInit demoHost ctxValid
        (applyValue demoHost ctxIdle State.init DisabledKind "b")).1.members
          DisabledKind = [2] ∧
      (lateInit demoHost ctxValid
        (lateInit demoHost ctxValid
          (applyValue demoHost ctxIdle State.init DisabledKind "b")).1).1 =
        (lateInit demoHost ctxValid
          (applyValue demoHost ctxIdle State.init DisabledKind "b")).1 ∧
      (lateInit demoHost ctxValid
        (lateInit demoHost ctxValid
          (applyValue demoHost ctxIdle State.init DisabledKind "b")).1).2 = [] :=
  ⟨by decide, by intro k; cases k <;> decide, by decide, by decide,
    ((lateInit_idempotent demoHost ctxValid
      (applyValue demoHost ctxIdle State.init DisabledKind "b")).2 (by decide)
      (by intro k; cases k <;> decide) (by decide)).2.1,
    ((lateInit_idempotent demoHost ctxValid
      (lateInit demoHost ctxValid
        (applyValue demoHost ctxIdle State.init DisabledKind "b")).1).1
      (by decide) (by decide) (by decide)).2⟩

/-! ## Termination -/

/-- C17: `indexFilter` terminates on every candidate list and configuration.
In the only-list branch a pass that restarts the scan has removed one
candidate, so with one more pass allowed than the list has entries the loop
returns the result of `indexFilter`, after as many restarts as entries were
removed; the disabled branch makes one scan per disabled entry, each over at
most the whole list; and when lazy initialization does not complete, no scan
is made and the list is the one received. -/
theorem indexFilter_terminates (h : Host) (ctx : Context) (s : State)
    (mem : Ptr → IndexOptInfo) (root : Ptr) (relationObjectId : Oid)
    (inhparent : Bool) (rel : RelOptInfo) :
    (raised (lateInit h ctx s).2 = false →
        0 < (lateInit h ctx s).1.nOnlyIndexes →
        restart1Fuel (lateInit h ctx s).1 mem (rel.indexlist.length + 1)
            rel.indexlist =
          some ((indexFilter h ctx s mem root relationObjectId inhparent
              rel).2.1.indexlist,
            rel.indexlist.length -
              (indexFilter h ctx s mem root relationObjectId inhparent
                rel).2.1.indexlist.length)) ∧
      (∀ (l : List Ptr) (info : Ptr),
        onlyPass (lateInit h ctx s).1 mem l = some info →
          (list_delete_ptr l info).length + 1 = l.length) ∧
      ((lateInit h ctx s).1.nOnlyIndexes = 0 →
        (raised (lateInit h ctx s).2 = false →
          (indexFilter h ctx s mem root relationObjectId inhparent rel).2.1.indexlist =
            disabledLoop (lateInit h ctx s).1 mem
              (lateInit h ctx s).1.nDisabledIndexes 0 rel.indexlist) ∧
          disabledLoopVisits (lateInit h ctx s).1 mem
              (lateInit h ctx s).1.nDisabledIndexes 0 rel.indexlist ≤
            (lateInit h ctx s).1.nDisabledIndexes * rel.indexlist.length) ∧
      (raised (lateInit h ctx s).2 = true →
        (indexFilter h ctx s mem root relationObjectId inhparent rel).2.1 = rel) := by
  refine ⟨?_, ?_, ?_, ?_⟩
  · intro hret hpos
    rw [restart1Fuel_enough _ mem _ _ (Nat.lt_succ_self _),
      indexFilter_rel h ctx s mem root relationObjectId inhparent rel hret]
    simp only [filterList, gt_iff_lt, hpos, if_true]
  · intro l info h0
    exact onlyPass_delete_length _ mem l info h0
  · intro honly
    refine ⟨?_, disabledLoopVisits_le _ mem _ 0 _⟩
    intro hret
    rw [indexFilter_rel h ctx s mem root relationObjectId inhparent rel hret]
    simp only [filterList, gt_iff_lt, honly, Nat.lt_irrefl, if_false]
  · intro hret
    exact indexFilter_rel_raised h ctx s mem root relationObjectId inhparent rel hret

/-- Only = [C] on the candidates [A, B, C]: two restarts, one for A and one
for B; disable = [B]: one scan, which stops at the second cell. -/
theorem indexFilter_terminates_witness :
    raised (lateInit demoHost ctxValid
        (applyValue demoHost ctxValid State.init OnlyKind "c")).2 = false ∧
      0 < (lateInit demoHost ctxValid
        (applyValue demoHost ctxValid State.init OnlyKind "c")).1.nOnlyIndexes ∧
      restart1Fuel
          (lateInit demoHost ctxValid
            (applyValue demoHost ctxValid State.init OnlyKind "c")).1
          demoMem (demoRel.indexlist.length + 1) demoRel.indexlist =
        some ([103], 2) ∧
      restart1Fuel
          (lateInit demoHost ctxValid
            (applyValue demoHost ctxValid State.init OnlyKind "c")).1
          demoMem (demoRel.indexlist.length + 1) demoRel.indexlist =
        some ((indexFilter demoHost ctxValid
            (applyValue demoHost ctxValid State.init OnlyKind "c")
            demoMem 0 9 false demoRel).2.1.indexlist,
          demoRel.indexlist.length -
            (indexFilter demoHost ctxValid
              (applyValue demoHost ctxValid State.init OnlyKind "c")
              demoMem 0 9 false demoRel).2.1.indexlist.length) ∧
      (lateInit demoHost ctxValid
        (applyValue demoHost ctxValid State.init DisabledKind "b")).1.nOnlyIndexes = 0 ∧
      disabledLoopVisits
          (lateInit demoHost ctxValid
            (applyValue demoHost ctxValid State.init DisabledKind "b")).1
          demoMem 1 0 demoRel.indexlist = 2 ∧
      disabledLoopVisits
          (lateInit demoHost ctxValid
            (applyValue demoHost ctxValid State.init DisabledKind "b")).1
          demoMem
          (lateInit demoHost ctxValid
            (applyValue demoHost ctxValid State.init DisabledKind "b")).1.nDisabledIndexes
          0 demoRel.indexlist ≤
        (lateInit demoHost ctxValid
          (applyValue demoHost ctxValid State.init DisabledKind "b")).1.nDisabledIndexes *
          demoRel.indexlist.length :=
  ⟨by decide, by decide, by decide,
    (indexFilter_terminates demoHost ctxValid
      (applyValue demoHost ctxValid State.init OnlyKind "c")
      demoMem 0 9 false demoRel).1 (by decide) (by decide),
    by decide, by decide,
    ((indexFilter_terminates demoHost ctxValid
      (applyValue demoHost ctxValid State.init DisabledKind "b")
      demoMem 0 9 false demoRel).2.2.1 (by decide)).2⟩

/-! ## Bounds of the member arrays -/

/-- C18, as stated, fails twice. After the disable list a, b is applied
inside a transaction and the list c outside one, the stored count is 2, above
the one token of the text last applied; and the show function called next
inside a transaction reads its two members from the block that the
`lateInit` it runs has released. -/
theorem count_exceeds_last_text :
    demoHost.SplitIdentifierString "c" = some ["c"] ∧
      (runCalls demoHost State.init
        [Call.assign ctxValid "a, b" true DisabledKind,
          Call.setRaw DisabledKind "a, b",
          Call.assign ctxIdle "c" true DisabledKind,
          Call.setRaw DisabledKind "c"]).rawText DisabledKind = "c" ∧
      (runCalls demoHost State.init
        [Call.assign ctxValid "a, b" true DisabledKind,
          Call.setRaw DisabledKind "a, b",
          Call.assign ctxIdle "c" true DisabledKind,
          Call.setRaw DisabledKind "c"]).count DisabledKind = 2 ∧
      (runCalls demoHost State.init
        [Call.assign ctxValid "a, b" true DisabledKind,
          Call.setRaw DisabledKind "a, b",
          Call.assign ctxIdle "c" true DisabledKind,
          Call.setRaw DisabledKind "c"]).array DisabledKind = some [1, 2, 77] ∧
      (lateInit demoHost ctxValid
        (runCalls demoHost State.init
          [Call.assign ctxValid "a, b" true DisabledKind,
            Call.setRaw DisabledKind "a, b",
            Call.assign ctxIdle "c" true DisabledKind,
            Call.setRaw DisabledKind "c"])).2 =
        [Event.lookup "c", Event.relkind 3, Event.free DisabledKind] ∧
      (disabledIndexFilterShow demoHost ctxValid
        (runCalls demoHost State.init
          [Call.assign ctxValid "a, b" true DisabledKind,
            Call.setRaw DisabledKind "a, b",
            Call.assign ctxIdle "c" true DisabledKind,
            Call.setRaw DisabledKind "c"])).1 = ShowResult.freedRead := by
  decide

/-- C18, amended: in every state reached from the initial state by calls of
`indexesAssign`, `lateInit` and `indexFilter` (and by PostgreSQL overwriting
the raw texts), each kind has count 0 while it has no block, and otherwise a
count of at most the number of tokens of the text its block was resolved
from, in a block of that number plus one entries; so the count is strictly
below the length of the block and every read at an index below the count
falls inside the block; an apply-mode call in a valid context that returns
stores such a count and block for its text; while it runs, the write index
stays at or below the number of tokens already visited and the block keeps
its length; and a show function called while the flag of its kind is set
reads that count and block, a released block being read only when the flag
was not set. -/
theorem counts_within_blocks (h : Host) (calls : List Call) :
    (∀ k : IndexListKind,
        ((runCalls h State.init calls).array k = none ∧
          (runCalls h State.init calls).count k = 0) ∨
        storedFromText h (runCalls h State.init calls) k) ∧
      (runCalls h State.init calls).wellSized ∧
      (∀ (k : IndexListKind) (i : Nat), i < (runCalls h State.init calls).count k →
        ∃ cells, (runCalls h State.init calls).array k = some cells ∧
          i < cells.length) ∧
      (∀ (ctx : Context) (newval : String) (kind : IndexListKind)
          (namelist : List String),
        h.SplitIdentifierString newval = some namelist → ctx.valid = true →
        raised (indexesAssign h ctx (runCalls h State.init calls) newval true
          kind).log = false →
        (indexesAssign h ctx (runCalls h State.init calls) newval true
            kind).state.count kind ≤ namelist.length ∧
          ∃ cells,
            (indexesAssign h ctx (runCalls h State.init calls) newval true
              kind).state.array kind = some cells ∧
            cells.length = namelist.length + 1) ∧
      (∀ (front back : List String),
        (front.foldl (assignStep h true)
            { newOids := malloc h ((front ++ back).length + 1), i := 0,
              log := [] }).i ≤ front.length ∧
          ∃ cells,
            (front.foldl (assignStep h true)
              { newOids := malloc h ((front ++ back).length + 1), i := 0,
                log := [] }).newOids = some cells ∧
            cells.length = (front ++ back).length + 1) ∧
      (∀ (ctx : Context) (k : IndexListKind),
        (runCalls h State.init calls).inited k = true →
        raised (lateInit h ctx (runCalls h State.init calls)).2 = false →
        (IndexFilterShow h ctx (runCalls h State.init calls)
            { origin := k, block := (runCalls h State.init calls).array k }
            ((runCalls h State.init calls).count k)).1 =
          ShowResult.text
            (showLoop h ((runCalls h State.init calls).array k)
              ((runCalls h State.init calls).count k) 0 "")) ∧
      (∀ (ctx : Context) (k : IndexListKind),
        (IndexFilterShow h ctx (runCalls h State.init calls)
            { origin := k, block := (runCalls h State.init calls).array k }
            ((runCalls h State.init calls).count k)).1 = ShowResult.freedRead →
        (runCalls h State.init calls).inited k = false ∧
          0 < (runCalls h State.init calls).count k) := by
  have hw := runCalls_wellSized h calls State.init init_wellSized
  refine ⟨?_, hw, ?_, ?_, ?_, ?_, ?_⟩
  · intro k
    apply runCalls_stores h k calls State.init
    left
    cases k <;> exact ⟨rfl, rfl⟩
  · intro k i hi
    exact arrayHolds_read _ _ i (hw k) hi
  · intro ctx newval kind namelist hsp hv hret
    have ha := indexesAssign_apply_block h ctx (runCalls h State.init calls) newval
      kind namelist hsp hv hret
    have hb := assignLoop_bounds h namelist
    rw [ha.1, ha.2]
    exact hb
  · intro front back
    exact assign_fold_block h front ((front ++ back).length + 1)
  · intro ctx k hi hret
    exact IndexFilterShow_inited h ctx _ k hi hret
  · intro ctx k hf
    have := IndexFilterShow_freedRead h ctx _ k hf
    exact ⟨this.1, this.2.1⟩

/-- After the disable list of three names is applied and a planning call is
made, one member is stored in a block of four entries, and the show function
prints it. -/
theorem counts_within_blocks_witness :
    demoHost.SplitIdentifierString "t, b, no_such_index" =
        some ["t", "b", "no_such_index"] ∧
      ctxValid.valid = true ∧
      (runCalls demoHost State.init
        [Call.assign ctxValid "t, b, no_such_index" true DisabledKind,
          Call.filter ctxValid demoMem 0 9 false demoRel]).count DisabledKind = 1 ∧
      (runCalls demoHost State.init
        [Call.assign ctxValid "t, b, no_such_index" true DisabledKind,
          Call.filter ctxValid demoMem 0 9 false demoRel]).array DisabledKind =
        some [2, 77, 77, 77] ∧
      (runCalls demoHost State.init
        [Call.assign ctxValid "t, b, no_such_index" true DisabledKind,
          Call.filter ctxValid demoMem 0 9 false demoRel]).wellSized ∧
      (indexesAssign demoHost ctxValid (runCalls demoHost State.init [])
        "t, b, no_such_index" true DisabledKind).state.count DisabledKind ≤
          ["t", "b", "no_such_index"].length ∧
      (disabledIndexFilterShow demoHost ctxValid
        (runCalls demoHost State.init
          [Call.assign ctxValid "t, b, no_such_index" true DisabledKind,
            Call.filter ctxValid demoMem 0 9 false demoRel])).1 =
        ShowResult.text "public.b" :=
  ⟨by decide, by decide, by decide, by decide,
    (counts_within_blocks demoHost
      [Call.assign ctxValid "t, b, no_such_index" true DisabledKind,
        Call.filter ctxValid demoMem 0 9 false demoRel]).2.1,
    ((counts_within_blocks demoHost []).2.2.2.1 ctxValid "t, b, no_such_index"
      DisabledKind ["t", "b", "no_such_index"] (by decide) (by decide)
      (by decide)).1,
    ((counts_within_blocks demoHost
      [Call.assign ctxValid "t, b, no_such_index" true DisabledKind,
        Call.filter ctxValid demoMem 0 9 false demoRel]).2.2.2.2.2.1 ctxValid
      DisabledKind (by decide) (by decide)).trans (by decide)⟩

/-! ## Candidates that share an index id -/

/-- C19: when the only-list has no members, the result of an `indexFilter`
whose lazy initialization completes is the result of one pass per disabled
entry; a pass unlinks at most one candidate, the first one carrying the id of
its entry, and only if that id is not an enabled member; so at most as many
candidates are removed as there are disabled entries, and of the candidates
carrying one id at most as many as the id has entries in the disabled list,
none if the id is enabled. -/
theorem indexFilter_disabled_entry (h : Host) (ctx : Context) (s : State)
    (mem : Ptr → IndexOptInfo) (root : Ptr) (relationObjectId : Oid)
    (inhparent : Bool) (rel : RelOptInfo)
    (honly : (lateInit h ctx s).1.nOnlyIndexes = 0) :
    (raised (lateInit h ctx s).2 = false →
        (indexFilter h ctx s mem root relationObjectId inhparent rel).2.1.indexlist =
          disabledLoop (lateInit h ctx s).1 mem (lateInit h ctx s).1.nDisabledIndexes 0
            rel.indexlist) ∧
      (∀ (i : Nat) (front back : List Ptr) (info : Ptr),
        (∀ p ∈ front,
          (mem p).indexoid ≠ (lateInit h ctx s).1.disabledIndexes.read i) →
        (mem info).indexoid = (lateInit h ctx s).1.disabledIndexes.read i →
        disabledPass (lateInit h ctx s).1 mem i (front ++ info :: back)
            (front ++ info :: back) =
          if (mem info).indexoid ∈ (lateInit h ctx s).1.members EnabledKind then
            front ++ info :: back
          else front ++ back) ∧
      (∀ (i : Nat) (l : List Ptr),
        (∀ p ∈ l, (mem p).indexoid ≠ (lateInit h ctx s).1.disabledIndexes.read i) →
        disabledPass (lateInit h ctx s).1 mem i l l = l) ∧
      rel.indexlist.length ≤
        (indexFilter h ctx s mem root relationObjectId inhparent
          rel).2.1.indexlist.length + (lateInit h ctx s).1.nDisabledIndexes ∧
      (∀ x : Oid,
        (rel.indexlist.map (fun p => (mem p).indexoid)).count x ≤
          ((indexFilter h ctx s mem root relationObjectId inhparent
            rel).2.1.indexlist.map (fun p => (mem p).indexoid)).count x +
            ((lateInit h ctx s).1.members DisabledKind).count x) ∧
      (∀ x : Oid, x ∈ (lateInit h ctx s).1.members EnabledKind →
        ((indexFilter h ctx s mem root relationObjectId inhparent
            rel).2.1.indexlist.map (fun p => (mem p).indexoid)).count x =
          (rel.indexlist.map (fun p => (mem p).indexoid)).count x) := by
  have hfl : filterList (lateInit h ctx s).1 mem rel.indexlist =
      disabledLoop (lateInit h ctx s).1 mem (lateInit h ctx s).1.nDisabledIndexes 0
        rel.indexlist := by
    simp only [filterList, gt_iff_lt, honly, Nat.lt_irrefl, if_false]
  have hm : (lateInit h ctx s).1.members DisabledKind =
      (List.range' 0 (lateInit h ctx s).1.nDisabledIndexes).map
        (lateInit h ctx s).1.disabledIndexes.read := by
    simp [State.members, membersOf, State.array, State.count, List.range_eq_range']
  refine ⟨?_, ?_, ?_, ?_, ?_, ?_⟩
  · intro hret
    rw [indexFilter_rel h ctx s mem root relationObjectId inhparent rel hret]
    exact hfl
  · intro i front back info hfront hinfo
    exact disabledPass_first _ mem i front back info hfront hinfo
  · intro i l hl
    exact disabledPass_absent _ mem i l hl
  · cases hret : raised (lateInit h ctx s).2 with
    | true =>
      rw [indexFilter_rel_raised h ctx s mem root relationObjectId inhparent rel hret]
      exact Nat.le_add_right _ _
    | false =>
      rw [indexFilter_rel h ctx s mem root relationObjectId inhparent rel hret]
      show rel.indexlist.length ≤
        (filterList (lateInit h ctx s).1 mem rel.indexlist).length + _
      rw [hfl]
      exact (disabledLoop_count _ mem 0 _ 0 rel.indexlist).2
  · intro x
    cases hret : raised (lateInit h ctx s).2 with
    | true =>
      rw [indexFilter_rel_raised h ctx s mem root relationObjectId inhparent rel hret]
      exact Nat.le_add_right _ _
    | false =>
      have hc := (disabledLoop_count (lateInit h ctx s).1 mem x
        (lateInit h ctx s).1.nDisabledIndexes 0 rel.indexlist).1
      rw [indexFilter_rel h ctx s mem root relationObjectId inhparent rel hret]
      show _ ≤ ((filterList (lateInit h ctx s).1 mem rel.indexlist).map _).count x + _
      rw [hfl, hm]
      split at hc <;> omega
  · intro x hx
    cases hret : raised (lateInit h ctx s).2 with
    | true =>
      rw [indexFilter_rel_raised h ctx s mem root relationObjectId inhparent rel hret]
    | false =>
      have hc := (disabledLoop_count (lateInit h ctx s).1 mem x
        (lateInit h ctx s).1.nDisabledIndexes 0 rel.indexlist).1
      have hs : ((filterList (lateInit h ctx s).1 mem rel.indexlist).map
          (fun p => (mem p).indexoid)).count x ≤
          (rel.indexlist.map (fun p => (mem p).indexoid)).count x :=
        ((filterList_sublist _ mem rel.indexlist).map _).count_le x
      rw [indexFilter_rel h ctx s mem root relationObjectId inhparent rel hret]
      show ((filterList (lateInit h ctx s).1 mem rel.indexlist).map _).count x = _
      rw [hfl] at hs ⊢
      simp only [hx, if_true, Nat.add_zero] at hc
      omega

/-- Disable = [B] on candidates [A, B, B, C]: the first B goes, the second
stays. -/
theorem indexFilter_disabled_entry_witness :
    (lateInit demoHost ctxValid
        (applyValue demoHost ctxValid State.init DisabledKind "b")).1.nOnlyIndexes = 0 ∧
      (indexFilter demoHost ctxValid
        (applyValue demoHost ctxValid State.init DisabledKind "b")
        dupMem 0 9 false dupRel).2.1.indexlist = [101, 202, 103] ∧
      dupRel.indexlist.length ≤
        (indexFilter demoHost ctxValid
          (applyValue demoHost ctxValid State.init DisabledKind "b")
          dupMem 0 9 false dupRel).2.1.indexlist.length +
          (lateInit demoHost ctxValid
            (applyValue demoHost ctxValid State.init DisabledKind "b")).1.nDisabledIndexes :=
  ⟨by decide, by decide,
    (indexFilter_disabled_entry demoHost ctxValid
      (applyValue demoHost ctxValid State.init DisabledKind "b")
      dupMem 0 9 false dupRel (by decide)).2.2.2.1⟩

/-! ## The show functions -/

/-- C20: the code breaks the claim. With disable = b set before any
transaction (flag not set, no members), the show function called inside a
transaction returns the empty text, although the `lateInit` it runs leaves
the member [2], whose text, returned by the next call, is public.b. -/
theorem show_uses_members_before_lateInit :
    (applyValue demoHost ctxIdle State.init DisabledKind "b").inited DisabledKind =
        false ∧
      (disabledIndexFilterShow demoHost ctxValid
        (applyValue demoHost ctxIdle State.init DisabledKind "b")).1 =
          ShowResult.text "" ∧
      (disabledIndexFilterShow demoHost ctxValid
        (applyValue demoHost ctxIdle State.init DisabledKind "b")).2.1.members
          DisabledKind = [2] ∧
      (disabledIndexFilterShow demoHost ctxValid
        (disabledIndexFilterShow demoHost ctxValid
          (applyValue demoHost ctxIdle State.init DisabledKind "b")).2.1).1 =
        ShowResult.text "public.b" := by
  decide

end Plantuner
